import Mathlib

/-!
# Verification of the SmartGantt scheduling board core

This development gives a shallow embedding of the repository's core logic:

* the working-day calendar arithmetic of `DateUtils` (`isWeekend`, `isHoliday`,
  `calculateWorkingDays`, `addDaysToDate`, `calculateEndDate`);
* the `GanttChart` component's two drag protocols (`handleBarMouseDown`,
  `handleMouseMove`, `handleMouseUp`, `handleDragStart`, `handleDrop`) and its
  row projection (`rows`);
* the `getColorForRole` palette mapping of `types.ts`;
* the `ProjectBoard` snapshot codec (`decodeData` with its base64 / UTF-8 /
  JSON pipeline).

Calendar-date strings `YYYY-MM-DD` are embedded as their epoch day numbers
(`Int`, days since 1970-01-01).  In JavaScript a date-only string, its
`Date` object and its timestamp are in exact order-preserving bijection
(parsing is UTC, `toISOString().split('T')[0]` inverts it), `setDate(+1)` is
`+1` on day numbers, `getDay()` is `(n + 4) % 7`, and string comparison of
ISO dates agrees with numeric comparison, so every `DateUtils` operation is
faithfully a function on day numbers.  Concrete dates are written with
`dateToDays` (the standard civil-calendar conversion), so `dateToDays ⟨2025, 5, 30⟩`
is the day number of the string `'2025-05-30'`.
-/

namespace Gantt

/-- A `YYYY-MM-DD` calendar date, used to denote concrete date strings. -/
structure Ymd where
  year : Int
  month : Int
  day : Int
deriving DecidableEq, Repr

/-- Epoch day number of a calendar date (days since 1970-01-01), the standard
civil-from-date conversion; it agrees with the JavaScript timestamp of
`new Date('YYYY-MM-DD')` divided by 86400000. -/
def dateToDays (d : Ymd) : Int :=
  let y := if d.month ≤ 2 then d.year - 1 else d.year
  let era := Int.fdiv y 400
  let yoe := y - era * 400
  let mp := Int.emod (d.month + 9) 12
  let doy := (153 * mp + 2) / 5 + d.day - 1
  let doe := yoe * 365 + yoe / 4 - yoe / 100 + doy
  era * 146097 + doe - 719468

/-- The hardcoded holiday set `TAIWAN_HOLIDAYS` of `DateUtils`, as calendar
dates (source: the string set literal for 2025 and 2026). -/
def TAIWAN_HOLIDAYS : List Ymd :=
  [⟨2025, 1, 1⟩,
   ⟨2025, 1, 27⟩, ⟨2025, 1, 28⟩, ⟨2025, 1, 29⟩, ⟨2025, 1, 30⟩, ⟨2025, 1, 31⟩,
   ⟨2025, 2, 28⟩,
   ⟨2025, 4, 3⟩, ⟨2025, 4, 4⟩,
   ⟨2025, 5, 30⟩,
   ⟨2025, 10, 6⟩,
   ⟨2025, 10, 10⟩,
   ⟨2026, 1, 1⟩,
   ⟨2026, 2, 16⟩, ⟨2026, 2, 17⟩, ⟨2026, 2, 18⟩, ⟨2026, 2, 19⟩, ⟨2026, 2, 20⟩,
   ⟨2026, 2, 27⟩,
   ⟨2026, 4, 3⟩, ⟨2026, 4, 6⟩,
   ⟨2026, 6, 19⟩,
   ⟨2026, 9, 25⟩,
   ⟨2026, 10, 9⟩]

/-- The holiday set as day numbers (membership of a date string in the set is
membership of its day number here, since valid date strings and day numbers
are in bijection). -/
def holidayDays : List Int := TAIWAN_HOLIDAYS.map dateToDays

/-- Model of `isWeekend` of `DateUtils`: `getDay()` is 0 (Sunday) or 6 (Saturday);
`getDay` of day number `n` is `(n + 4) % 7`. -/
def isWeekend (n : Int) : Bool :=
  let day := Int.emod (n + 4) 7
  day == 0 || day == 6

/-- Model of `isHoliday` of `DateUtils`: membership in `TAIWAN_HOLIDAYS`. -/
def isHoliday (n : Int) : Bool :=
  holidayDays.contains n

/-- The off-day test shared by `calculateWorkingDays` (inlined there as
`dayOfWeek === 0 || dayOfWeek === 6 || isHoliday(dateStr)`) and
`calculateEndDate` (`isWeekend(dateStr) || isHoliday(dateStr)`). -/
def isOffDay (n : Int) : Bool :=
  isWeekend n || isHoliday n

/-- The counting loop of `calculateWorkingDays`: number of non-off days among
the `len` consecutive days starting at `s`. -/
def workingCount (s : Int) : Nat → Nat
  | 0 => 0
  | len + 1 => (if isOffDay s then 0 else 1) + workingCount (s + 1) len

/-- Model of `calculateWorkingDays` of `DateUtils`: walks `curDate` from `start` to
`endDate` inclusive, counting days that are neither weekend nor holiday
(0 when `endDate < start`, as the loop body never runs). -/
def calculateWorkingDays (start endDate : Int) : Nat :=
  workingCount start (endDate - start + 1).toNat

/-- Model of `addDaysToDate` of `DateUtils`: plain calendar-day arithmetic. -/
def addDaysToDate (dateN : Int) (days : Int) : Int :=
  dateN + days

/-- The bounded scan loop of `calculateEndDate`: each iteration counts the
current day if it is a working day, records it as `lastValidDate`, returns it
once `workedDays >= requiredWorkingDays`, and otherwise advances one day; when
the 365-iteration fuel is exhausted the last scanned date is returned. -/
def endScan (cur : Int) (worked : Nat) (required : Nat) (last : Int) : Nat → Int
  | 0 => last
  | fuel + 1 =>
    let worked' := if isOffDay cur then worked else worked + 1
    if required ≤ worked' then cur
    else endScan (cur + 1) worked' required cur fuel

/-- Model of `calculateEndDate` of `DateUtils`: returns `start` unchanged when the
requirement is non-positive, otherwise runs the 365-bounded forward scan. -/
def calculateEndDate (startDate : Int) (requiredWorkingDays : Int) : Int :=
  if requiredWorkingDays ≤ 0 then startDate
  else endScan startDate 0 requiredWorkingDays.toNat startDate 365

/-! ## Basic facts about the working-day counting and scanning loops -/

theorem workingCount_one (s : Int) :
    workingCount s 1 = if isOffDay s then 0 else 1 := by
  by_cases h : isOffDay s <;> simp [workingCount, h]

theorem workingCount_succ_front (s : Int) (n : Nat) :
    workingCount s (n + 1) = workingCount s 1 + workingCount (s + 1) n := by
  by_cases h : isOffDay s <;> simp [workingCount, h]

theorem workingCount_succ_back (s : Int) (n : Nat) :
    workingCount s (n + 1) = workingCount s n + (if isOffDay (s + n) then 0 else 1) := by
  induction n generalizing s with
  | zero => by_cases h : isOffDay s <;> simp [workingCount, h]
  | succ m ih =>
    have h1 : workingCount s (m + 2) = (if isOffDay s then 0 else 1) + workingCount (s + 1) (m + 1) := rfl
    have h2 : workingCount s (m + 1) = (if isOffDay s then 0 else 1) + workingCount (s + 1) m := rfl
    rw [h1, ih (s + 1), h2]
    have h3 : s + 1 + (m : Int) = s + ((m : Nat) + 1 : Nat) := by push_cast; ring
    rw [h3]
    omega

theorem workingCount_mono (s : Int) {m n : Nat} (h : m ≤ n) :
    workingCount s m ≤ workingCount s n := by
  induction n with
  | zero =>
    have : m = 0 := Nat.le_zero.mp h
    simp [this]
  | succ k ih =>
    rcases Nat.lt_or_ge m (k + 1) with hlt | hge
    · have hmk := ih (Nat.lt_succ_iff.mp hlt)
      rw [workingCount_succ_back]
      omega
    · have : m = k + 1 := Nat.le_antisymm h hge
      simp [this]

theorem workingCount_congr {s t : Int} {n : Nat}
    (h : ∀ j : Nat, j < n → isOffDay (s + j) = isOffDay (t + j)) :
    workingCount s n = workingCount t n := by
  induction n generalizing s t with
  | zero => rfl
  | succ m ih =>
    have h0 : isOffDay s = isOffDay t := by
      have := h 0 (Nat.succ_pos m)
      simpa using this
    have hs : workingCount s (m + 1) = (if isOffDay s then 0 else 1) + workingCount (s + 1) m := rfl
    have ht : workingCount t (m + 1) = (if isOffDay t then 0 else 1) + workingCount (t + 1) m := rfl
    rw [hs, ht, h0]
    have hrest : workingCount (s + 1) m = workingCount (t + 1) m := by
      apply ih
      intro j hj
      have := h (j + 1) (by omega)
      have hcast1 : s + ((j : Nat) + 1 : Nat) = s + 1 + (j : Int) := by push_cast; ring
      have hcast2 : t + ((j : Nat) + 1 : Nat) = t + 1 + (j : Int) := by push_cast; ring
      rw [hcast1, hcast2] at this
      exact this
    rw [hrest]

theorem workingCount_pos {s : Int} {n : Nat} (j : Nat) (hj : j < n)
    (hw : isOffDay (s + j) = false) : 1 ≤ workingCount s n := by
  induction n generalizing s j with
  | zero => omega
  | succ m ih =>
    cases j with
    | zero =>
      have : isOffDay s = false := by simpa using hw
      have hs : workingCount s (m + 1) = (if isOffDay s then 0 else 1) + workingCount (s + 1) m := rfl
      rw [hs, this]
      simp
    | succ i =>
      have hrec : 1 ≤ workingCount (s + 1) m := by
        apply ih i (by omega)
        have hcast : s + ((i : Nat) + 1 : Nat) = s + 1 + (i : Int) := by push_cast; ring
        rw [hcast] at hw
        exact hw
      have hs : workingCount s (m + 1) = (if isOffDay s then 0 else 1) + workingCount (s + 1) m := rfl
      rw [hs]
      omega

theorem endScan_step_worked (cur : Int) (w : Nat) :
    (if isOffDay cur then w else w + 1) = w + workingCount cur 1 := by
  by_cases h : isOffDay cur <;> simp [workingCount, h]

/-- If, among the scanned days, the cumulative working-day count first reaches
`req` at day `s + k` (with `k` within the fuel), the scan returns `s + k`. -/
theorem endScan_hit {k : Nat} : ∀ {fuel : Nat} (s : Int) (w req : Nat) (last : Int),
    k < fuel → req ≤ w + workingCount s (k + 1) →
    (∀ j : Nat, j < k → w + workingCount s (j + 1) < req) →
    endScan s w req last fuel = s + k := by
  induction k with
  | zero =>
    intro fuel s w req last hfuel hreach _
    cases fuel with
    | zero => omega
    | succ f =>
      rw [endScan, endScan_step_worked]
      have : req ≤ w + workingCount s 1 := hreach
      simp [this]
  | succ m ih =>
    intro fuel s w req last hfuel hreach hmin
    cases fuel with
    | zero => omega
    | succ f =>
      rw [endScan, endScan_step_worked]
      have hnot : ¬ req ≤ w + workingCount s 1 := by
        have := hmin 0 (Nat.succ_pos m)
        simp only [Nat.zero_add] at this
        omega
      simp only [hnot, if_neg, ite_false]
      have hsplit : ∀ n : Nat, workingCount s (n + 1 + 1) = workingCount s 1 + workingCount (s + 1) (n + 1) :=
        fun n => workingCount_succ_front s (n + 1)
      have hreach' : req ≤ (w + workingCount s 1) + workingCount (s + 1) (m + 1) := by
        have := hreach
        rw [hsplit m] at this
        omega
      have hmin' : ∀ j : Nat, j < m → (w + workingCount s 1) + workingCount (s + 1) (j + 1) < req := by
        intro j hj
        have := hmin (j + 1) (by omega)
        rw [hsplit j] at this
        omega
      have := @ih f (s + 1) (w + workingCount s 1) req s (by omega) hreach' hmin'
      rw [this]
      push_cast
      ring

/-- If the cumulative working-day count never reaches `req` within the fuel,
the scan returns the last scanned day, `s + (fuel - 1)`. -/
theorem endScan_exhaust : ∀ {fuel : Nat} (s : Int) (w req : Nat) (last : Int),
    1 ≤ fuel → (∀ j : Nat, j < fuel → w + workingCount s (j + 1) < req) →
    endScan s w req last fuel = s + ((fuel : Nat) - 1 : Nat) := by
  intro fuel
  induction fuel with
  | zero => omega
  | succ f ih =>
    intro s w req last _ hmin
    rw [endScan, endScan_step_worked]
    have hnot : ¬ req ≤ w + workingCount s 1 := by
      have := hmin 0 (Nat.succ_pos f)
      simp only [Nat.zero_add] at this
      omega
    simp only [hnot, if_neg, ite_false]
    cases f with
    | zero => simp [endScan]
    | succ f' =>
      have hsplit : ∀ n : Nat, workingCount s (n + 1 + 1) = workingCount s 1 + workingCount (s + 1) (n + 1) :=
        fun n => workingCount_succ_front s (n + 1)
      have hmin' : ∀ j : Nat, j < f' + 1 → (w + workingCount s 1) + workingCount (s + 1) (j + 1) < req := by
        intro j hj
        have := hmin (j + 1) (by omega)
        rw [hsplit j] at this
        omega
      have := ih (s + 1) (w + workingCount s 1) req s (by omega) hmin'
      rw [this]
      simp only [Nat.add_sub_cancel]
      push_cast
      ring

/-! ## C5: the holiday-counting scenario -/

/-- C5: `workingDaysBetween('2025-05-28', '2025-05-30') = 2` — the inclusive
range counts Wednesday 2025-05-28 and Thursday 2025-05-29 as working days,
while Friday 2025-05-30 is excluded because it is a member of the hardcoded
holiday set. -/
theorem workingDays_holiday_scenario :
    calculateWorkingDays (dateToDays ⟨2025, 5, 28⟩) (dateToDays ⟨2025, 5, 30⟩) = 2 ∧
    isWeekend (dateToDays ⟨2025, 5, 28⟩) = false ∧
    isHoliday (dateToDays ⟨2025, 5, 28⟩) = false ∧
    isWeekend (dateToDays ⟨2025, 5, 29⟩) = false ∧
    isHoliday (dateToDays ⟨2025, 5, 29⟩) = false ∧
    isHoliday (dateToDays ⟨2025, 5, 30⟩) = true := by
  decide

/-! ## C2: round-trip of counting and projecting working days -/

/-- C2 counterexample: the round trip fails as universally stated, because
`calculateEndDate` gives up after scanning 365 days.  With start
`2025-01-02` and end `2026-01-02` (a Friday, neither weekend nor holiday,
366 calendar days after the start), the projection returns `2026-01-01`
(the last scanned day) instead of the end date. -/
theorem roundTrip_fails_beyond_scan_bound :
    dateToDays ⟨2025, 1, 2⟩ ≤ dateToDays ⟨2026, 1, 2⟩ ∧
    isWeekend (dateToDays ⟨2026, 1, 2⟩) = false ∧
    isHoliday (dateToDays ⟨2026, 1, 2⟩) = false ∧
    calculateEndDate (dateToDays ⟨2025, 1, 2⟩)
        ((calculateWorkingDays (dateToDays ⟨2025, 1, 2⟩) (dateToDays ⟨2026, 1, 2⟩) : Nat) : Int)
      ≠ dateToDays ⟨2026, 1, 2⟩ := by
  refine ⟨by decide, by decide, by decide, ?_⟩
  set_option maxRecDepth 4000 in decide

/-- C2 (amended): for every pair of calendar dates with `start ≤ end`, `end` a
working day (neither weekend nor holiday), and `end` at most 364 calendar days
after `start` (so that it lies within the projection's 365-day scan bound),
`projectEndFromWorkingDays(start, workingDaysBetween(start, end)) = end`. -/
theorem calculateEndDate_roundTrip (s e : Int) (hse : s ≤ e) (hspan : e - s ≤ 364)
    (hwork : isOffDay e = false) :
    calculateEndDate s ((calculateWorkingDays s e : Nat) : Int) = e := by
  have hnonneg : 0 ≤ e - s := by omega
  set k : Nat := (e - s).toNat with hk
  have hkval : (k : Int) = e - s := Int.toNat_of_nonneg hnonneg
  have hklen : (e - s + 1).toNat = k + 1 := by omega
  have he : e = s + k := by omega
  have hk364 : k ≤ 364 := by omega
  have hcw : calculateWorkingDays s e = workingCount s (k + 1) := by
    rw [calculateWorkingDays, hklen]
  have hwk : isOffDay (s + k) = false := by rw [← he]; exact hwork
  have hreq1 : 1 ≤ workingCount s (k + 1) := workingCount_pos k (by omega) hwk
  have hlast : workingCount s (k + 1) = workingCount s k + 1 := by
    rw [workingCount_succ_back, hwk]
    simp
  rw [hcw, calculateEndDate]
  have hpos : ¬ ((workingCount s (k + 1) : Int) ≤ 0) := by
    have : (1 : Int) ≤ (workingCount s (k + 1) : Int) := by exact_mod_cast hreq1
    omega
  rw [if_neg hpos]
  have htonat : ((workingCount s (k + 1) : Int)).toNat = workingCount s (k + 1) := Int.toNat_natCast _
  rw [htonat]
  have hscan : endScan s 0 (workingCount s (k + 1)) s 365 = s + k := by
    apply endScan_hit s 0 (workingCount s (k + 1)) s (by omega)
    · omega
    · intro j hj
      have hmono : workingCount s (j + 1) ≤ workingCount s k := workingCount_mono s (by omega)
      omega
  rw [hscan, ← he]

/-- Witness for `calculateEndDate_roundTrip`: start Thursday 2025-01-02, end
Friday 2025-01-03 (both working), the projection of the counted span returns
the end date. -/
theorem calculateEndDate_roundTrip_witness :
    calculateEndDate (dateToDays ⟨2025, 1, 2⟩)
        ((calculateWorkingDays (dateToDays ⟨2025, 1, 2⟩) (dateToDays ⟨2025, 1, 3⟩) : Nat) : Int)
      = dateToDays ⟨2025, 1, 3⟩ :=
  calculateEndDate_roundTrip (dateToDays ⟨2025, 1, 2⟩) (dateToDays ⟨2025, 1, 3⟩)
    (by decide) (by decide) (by decide)

/-! ## C6: totality and bounded-scan characterisation of `calculateEndDate` -/

/-- Modelled from the claim's wording: scan day indices `j = 0, 1, …` for at
most `fuel` steps and return the first index at which the working-day count of
`start..start+j` reaches the requirement, or `none` when the bound is
exhausted. -/
def firstHitIdx (s : Int) (required : Nat) (j : Nat) : Nat → Option Nat
  | 0 => none
  | fuel + 1 =>
    if required ≤ workingCount s (j + 1) then some j
    else firstHitIdx s required (j + 1) fuel

/-- Modelled from the claim's wording: for non-positive requirements return
`start` unchanged; otherwise return the first date (scanning at most 365 days
forward) at which the working-day count reaches the requirement, or the last
scanned date if the bound is exhausted. -/
def endDateSpec (startDate : Int) (requiredWorkingDays : Int) : Int :=
  if requiredWorkingDays ≤ 0 then startDate
  else
    match firstHitIdx startDate requiredWorkingDays.toNat 0 365 with
    | some k => startDate + k
    | none => startDate + 364

theorem firstHitIdx_hit {k : Nat} : ∀ {fuel : Nat} (s : Int) (req j : Nat),
    k < fuel → req ≤ workingCount s (j + k + 1) →
    (∀ i : Nat, i < k → workingCount s (j + i + 1) < req) →
    firstHitIdx s req j fuel = some (j + k) := by
  induction k with
  | zero =>
    intro fuel s req j hfuel hreach _
    cases fuel with
    | zero => omega
    | succ f =>
      rw [firstHitIdx]
      have : req ≤ workingCount s (j + 1) := by
        simpa using hreach
      simp [this]
  | succ m ih =>
    intro fuel s req j hfuel hreach hmin
    cases fuel with
    | zero => omega
    | succ f =>
      rw [firstHitIdx]
      have hnot : ¬ req ≤ workingCount s (j + 1) := by
        have := hmin 0 (Nat.succ_pos m)
        simp only [Nat.add_zero] at this
        omega
      rw [if_neg hnot]
      have hreach' : req ≤ workingCount s ((j + 1) + m + 1) := by
        have hshape : (j + 1) + m + 1 = j + (m + 1) + 1 := by omega
        rw [hshape]
        exact hreach
      have hmin' : ∀ i : Nat, i < m → workingCount s ((j + 1) + i + 1) < req := by
        intro i hi
        have hshape : (j + 1) + i + 1 = j + (i + 1) + 1 := by omega
        rw [hshape]
        exact hmin (i + 1) (by omega)
      have := @ih f s req (j + 1) (by omega) hreach' hmin'
      rw [this]
      congr 1
      omega

theorem firstHitIdx_exhaust : ∀ {fuel : Nat} (s : Int) (req j : Nat),
    (∀ i : Nat, i < fuel → workingCount s (j + i + 1) < req) →
    firstHitIdx s req j fuel = none := by
  intro fuel
  induction fuel with
  | zero => intro s req j _; rfl
  | succ f ih =>
    intro s req j hmin
    rw [firstHitIdx]
    have hnot : ¬ req ≤ workingCount s (j + 1) := by
      have := hmin 0 (Nat.succ_pos f)
      simp only [Nat.add_zero] at this
      omega
    rw [if_neg hnot]
    apply ih
    intro i hi
    have hshape : (j + 1) + i + 1 = j + (i + 1) + 1 := by omega
    rw [hshape]
    exact hmin (i + 1) (by omega)

/-- C6: `projectEndFromWorkingDays` is total with a bounded scan — it returns
`start` unchanged for non-positive requirements and otherwise equals the
claim's description: the first date (within a 365-iteration forward scan) at
which the working-day count reaches the requirement, or the last scanned date
when the bound is exhausted. -/
theorem calculateEndDate_eq_spec (startDate requiredWorkingDays : Int) :
    calculateEndDate startDate requiredWorkingDays = endDateSpec startDate requiredWorkingDays := by
  by_cases hneg : requiredWorkingDays ≤ 0
  · rw [calculateEndDate, endDateSpec, if_pos hneg, if_pos hneg]
  · rw [calculateEndDate, endDateSpec, if_neg hneg, if_neg hneg]
    set req : Nat := requiredWorkingDays.toNat with hreqdef
    by_cases hex : ∃ j : Nat, j < 365 ∧ req ≤ workingCount startDate (j + 1)
    · have hex' : ∃ j : Nat, req ≤ workingCount startDate (j + 1) := by
        obtain ⟨j, _, hj⟩ := hex
        exact ⟨j, hj⟩
      set k0 : Nat := Nat.find hex' with hk0def
      have hk0spec : req ≤ workingCount startDate (k0 + 1) := Nat.find_spec hex'
      have hk0min : ∀ i : Nat, i < k0 → workingCount startDate (i + 1) < req := by
        intro i hi
        have := Nat.find_min hex' hi
        omega
      have hk0lt : k0 < 365 := by
        obtain ⟨j, hj365, hj⟩ := hex
        have : k0 ≤ j := Nat.find_min' hex' hj
        omega
      have hscan : endScan startDate 0 req startDate 365 = startDate + k0 := by
        apply endScan_hit startDate 0 req startDate hk0lt
        · omega
        · intro j hj
          have := hk0min j hj
          omega
      have hfirst : firstHitIdx startDate req 0 365 = some (0 + k0) := by
        apply firstHitIdx_hit startDate req 0 hk0lt
        · simpa using hk0spec
        · intro i hi
          simpa using hk0min i hi
      rw [hscan, hfirst]
      simp
    · push_neg at hex
      have hmin : ∀ j : Nat, j < 365 → workingCount startDate (j + 1) < req := by
        intro j hj
        have := hex j hj
        omega
      have hscan : endScan startDate 0 req startDate 365 = startDate + ((365 : Nat) - 1 : Nat) := by
        apply endScan_exhaust startDate 0 req startDate (by omega)
        intro j hj
        have := hmin j hj
        omega
      have hfirst : firstHitIdx startDate req 0 365 = none := by
        apply firstHitIdx_exhaust startDate req 0
        intro i hi
        simpa using hmin i hi
      rw [hscan, hfirst]
      norm_num

/-! ## Data model of `types.ts` and the `GanttChart` drag state -/

/-- Model of `TaskAssignment` of `types.ts` (dates embedded as day numbers). -/
structure TaskAssignment where
  id : String
  role : String
  subLabel : Option String
  startDate : Int
  endDate : Int
  progress : Int
  color : String
deriving DecidableEq, Repr

instance : Inhabited TaskAssignment := ⟨⟨"", "", none, 0, 0, 0, ""⟩⟩

/-- Model of `Task` of `types.ts`: a Feature with its ordered assignment list. -/
structure Task where
  id : String
  name : String
  assignments : List TaskAssignment
deriving DecidableEq, Repr

instance : Inhabited Task := ⟨⟨"", "", []⟩⟩

/-- The `'TASK' | 'ASSIGNMENT'` tag of `DragState`. -/
inductive DragType where
  | TASK : DragType
  | ASSIGNMENT : DragType
deriving DecidableEq, Repr

/-- Model of `DragState` of `GanttChart` (the reorder drag-and-drop session). -/
structure DragState where
  type : DragType
  id : String
  parentId : Option String
deriving DecidableEq, Repr

/-- Model of `BarDragState` of `GanttChart` (the bar-reschedule session). -/
structure BarDragState where
  assignmentId : String
  parentId : String
  startX : Int
  originalStart : Int
  originalEnd : Int
  originalWorkingDays : Int
  currentStart : Int
  currentEnd : Int
  hasMoved : Bool
  taskReference : Task
deriving DecidableEq, Repr

instance : Inhabited BarDragState :=
  ⟨⟨"", "", 0, 0, 0, 0, 0, 0, false, default⟩⟩

/-- Model of `RenderRow` of `GanttChart`: one flattened row of the projection. -/
structure RenderRow where
  uniqueId : String
  label : String
  subLabel : Option String
  isHeader : Bool
  startDate : Option Int
  endDate : Option Int
  progress : Option Int
  color : Option String
  originalTask : Task
  originalAssignment : Option TaskAssignment
deriving DecidableEq, Repr

/-- The two pieces of drag state held by `GanttChart` (`draggedItem` for
reordering, `draggedBar` for bar rescheduling). -/
structure ChartState where
  draggedItem : Option DragState
  draggedBar : Option BarDragState
deriving DecidableEq, Repr

/-- Model of `DAY_WIDTH` constant of `GanttChart`. -/
def DAY_WIDTH : Int := 50

/-- Model of `Math.round(deltaX / DAY_WIDTH)` for an integral pixel offset:
`Math.round x = ⌊x + 1/2⌋` (half-up, towards `+∞`), so
`Math.round (deltaX / w) = ⌊(2·deltaX + w) / (2·w)⌋`. -/
def roundDeltaDays (deltaX : Int) : Int :=
  Int.fdiv (2 * deltaX + DAY_WIDTH) (2 * DAY_WIDTH)

/-- The `deltaDays` computed by `handleMouseMove` from a pointer position. -/
def deltaDaysOf (st : BarDragState) (clientX : Int) : Int :=
  roundDeltaDays (clientX - st.startX)

/-- Model of `handleMouseMove` of `GanttChart`: ignores the event in read-only mode,
no-ops when the rounded day delta is zero, and otherwise marks the session
moved and projects the live start/end (working-day preserving projection when
the original span is positive, plain calendar shift of the end otherwise). -/
def handleMouseMove (readOnly : Bool) (st : BarDragState) (clientX : Int) : BarDragState :=
  if readOnly then st
  else
    let deltaDays := deltaDaysOf st clientX
    if deltaDays = 0 then st
    else
      let newStartDate := addDaysToDate st.originalStart deltaDays
      let newEndDate :=
        if 0 < st.originalWorkingDays then calculateEndDate newStartDate st.originalWorkingDays
        else addDaysToDate st.originalEnd deltaDays
      { st with
        hasMoved := true
        currentStart := newStartDate
        currentEnd := newEndDate }

/-- Model of `handleBarMouseDown` of `GanttChart`: bails out unless the row has an
assignment and both dates; both the read-only and the normal branch open a
fresh bar session (unmoved, spans computed via `calculateWorkingDays`). -/
def handleBarMouseDown (readOnly : Bool) (st : ChartState) (row : RenderRow) (clientX : Int) :
    ChartState :=
  match row.originalAssignment, row.startDate, row.endDate with
  | some assign, some sd, some ed =>
    let freshBar : BarDragState :=
      { assignmentId := assign.id
        parentId := row.originalTask.id
        startX := clientX
        originalStart := sd
        originalEnd := ed
        originalWorkingDays := (calculateWorkingDays sd ed : Int)
        currentStart := sd
        currentEnd := ed
        hasMoved := false
        taskReference := row.originalTask }
    if readOnly then { st with draggedBar := some freshBar }
    else { st with draggedBar := some freshBar }
  | _, _, _ => st

/-- The externally observable effect of `handleMouseUp`: the task click
callbacks fired and the replacement collection (if any) published through
`onTaskReorder`. -/
structure MouseUpResult where
  clicks : List Task
  published : Option (List Task)
deriving DecidableEq, Repr

/-- Model of `handleMouseUp` of `GanttChart`: an unmoved session is a click (fires
`onTaskClick` on the stored task reference); a moved session commits the live
dates into the owning task's assignment and republishes the whole collection,
provided the `onTaskReorder` callback exists, the chart is not read-only and
the owning task is found; the session is always discarded. -/
def handleMouseUp (readOnly : Bool) (hasReorderCb : Bool) (tasks : List Task)
    (bar : Option BarDragState) : MouseUpResult :=
  match bar with
  | none => ⟨[], none⟩
  | some b =>
    if b.hasMoved = false then ⟨[b.taskReference], none⟩
    else if hasReorderCb && !readOnly then
      match tasks.findIdx? (fun t => t.id == b.parentId) with
      | some taskIndex =>
        let task := tasks.getD taskIndex default
        let newAssignments := task.assignments.map (fun a =>
          if a.id == b.assignmentId then
            { a with startDate := b.currentStart, endDate := b.currentEnd }
          else a)
        ⟨[], some (tasks.set taskIndex { task with assignments := newAssignments })⟩
      | none => ⟨[], none⟩
    else ⟨[], none⟩

/-- Model of `handleDragStart` of `GanttChart`: the returned flag is `false` when the
drag was prevented (`e.preventDefault()` in the guard).  A reorder drag is
refused outright while the chart is read-only or a bar session is open. -/
def handleDragStart (readOnly : Bool) (st : ChartState) (row : RenderRow) :
    ChartState × Bool :=
  if readOnly || st.draggedBar.isSome then (st, false)
  else if row.isHeader then
    ({ st with draggedItem := some ⟨DragType.TASK, row.originalTask.id, none⟩ }, true)
  else
    match row.originalAssignment with
    | some assign =>
      ({ st with draggedItem := some ⟨DragType.ASSIGNMENT, assign.id, some row.originalTask.id⟩ }, true)
    | none => (st, true)


/-! ## C1: the bar-reschedule projection preserves the working-day span -/

/-- If at least `req ≥ 1` working days occur within 365 days of `s`, then the
end date projected from `s` for requirement `req` spans exactly `req` working
days from `s` (the scan stops at the first day reaching the count, which is a
working day). -/
theorem calculateEndDate_count (s : Int) (req : Nat) (hreq : 1 ≤ req)
    (hex : ∃ j : Nat, j ≤ 364 ∧ req ≤ workingCount s (j + 1)) :
    calculateWorkingDays s (calculateEndDate s ((req : Nat) : Int)) = req := by
  have hex' : ∃ j : Nat, req ≤ workingCount s (j + 1) := by
    obtain ⟨j, _, hj⟩ := hex
    exact ⟨j, hj⟩
  set k0 : Nat := Nat.find hex' with hk0def
  have hk0spec : req ≤ workingCount s (k0 + 1) := Nat.find_spec hex'
  have hk0min : ∀ i : Nat, i < k0 → workingCount s (i + 1) < req := by
    intro i hi
    have := Nat.find_min hex' hi
    omega
  have hk0le : k0 ≤ 364 := by
    obtain ⟨j, hj364, hj⟩ := hex
    have : k0 ≤ j := Nat.find_min' hex' hj
    omega
  have hend : calculateEndDate s ((req : Nat) : Int) = s + k0 := by
    rw [calculateEndDate]
    have hnn : ¬ ((req : Int) ≤ 0) := by
      have : (1 : Int) ≤ (req : Int) := by exact_mod_cast hreq
      omega
    rw [if_neg hnn, Int.toNat_natCast]
    apply endScan_hit s 0 req s (by omega)
    · omega
    · intro j hj
      have := hk0min j hj
      omega
  rw [hend, calculateWorkingDays]
  have harg : (s + (k0 : Int) - s + 1).toNat = k0 + 1 := by omega
  rw [harg]
  have hk0prev : workingCount s k0 < req := by
    rcases Nat.eq_zero_or_pos k0 with h0 | hposk
    · rw [h0]
      simpa [workingCount] using hreq
    · have hm : k0 - 1 < k0 := by omega
      have hmin := hk0min (k0 - 1) hm
      have hshape : k0 - 1 + 1 = k0 := by omega
      rw [hshape] at hmin
      exact hmin
  have hstep : workingCount s (k0 + 1) ≤ workingCount s k0 + 1 := by
    rw [workingCount_succ_back]
    by_cases h : isOffDay (s + (k0 : Nat)) <;> simp [h]
  omega

/-- C1 (amended): for an in-flight bar-reschedule session with positive
original working-day span whose original interval is at most 364 calendar
days long, a pointer move with non-zero rounded day delta sets
`newStart = addCalendarDays(originalStart, deltaDays)` and
`newEnd = projectEndFromWorkingDays(newStart, originalWorkingDaySpan)`, and
whenever the weekend/holiday pattern over the interval is invariant under the
shift (no endpoint crosses a boundary) the working-day span is preserved. -/
theorem barDrag_preserves_workingDays (st : BarDragState) (clientX : Int)
    (hsession : st.originalWorkingDays
        = ((calculateWorkingDays st.originalStart st.originalEnd : Nat) : Int))
    (hpos : 0 < st.originalWorkingDays)
    (hdelta : deltaDaysOf st clientX ≠ 0)
    (hspan : st.originalEnd - st.originalStart ≤ 364)
    (hshift : ∀ j : Nat, (j : Int) ≤ st.originalEnd - st.originalStart →
      isOffDay (st.originalStart + j)
        = isOffDay (st.originalStart + deltaDaysOf st clientX + j)) :
    (handleMouseMove false st clientX).currentStart
        = addDaysToDate st.originalStart (deltaDaysOf st clientX) ∧
    (handleMouseMove false st clientX).currentEnd
        = calculateEndDate ((handleMouseMove false st clientX).currentStart)
            st.originalWorkingDays ∧
    calculateWorkingDays (handleMouseMove false st clientX).currentStart
        (handleMouseMove false st clientX).currentEnd
      = calculateWorkingDays st.originalStart st.originalEnd := by
  have hmm : handleMouseMove false st clientX =
      { st with
        hasMoved := true
        currentStart := addDaysToDate st.originalStart (deltaDaysOf st clientX)
        currentEnd := calculateEndDate (addDaysToDate st.originalStart (deltaDaysOf st clientX))
          st.originalWorkingDays } := by
    rw [handleMouseMove]
    simp only [Bool.false_eq_true, if_false, hdelta, if_neg, ite_false, hpos, if_pos, ite_true]
  refine ⟨by rw [hmm], by rw [hmm], ?_⟩
  rw [hmm]
  simp only
  set s : Int := st.originalStart with hsdef
  set e : Int := st.originalEnd with hedef
  set d : Int := deltaDaysOf st clientX with hddef
  -- the original interval is non-degenerate: its working-day count is positive
  have hcwpos : 0 < calculateWorkingDays s e := by
    by_contra hzero
    have h0 : calculateWorkingDays s e = 0 := by omega
    rw [h0] at hsession
    simp [hsession] at hpos
  have hse : s ≤ e := by
    by_contra hlt
    have : (e - s + 1).toNat = 0 ∨ (e - s + 1).toNat = 1 := by omega
    rcases this with h | h
    · rw [calculateWorkingDays, h] at hcwpos
      simp [workingCount] at hcwpos
    · -- e < s and toNat = 1 forces e = s, contradiction
      omega
  set k : Nat := (e - s).toNat with hkdef
  have hkval : (k : Int) = e - s := Int.toNat_of_nonneg (by omega)
  have hklen : (e - s + 1).toNat = k + 1 := by omega
  have hk364 : k ≤ 364 := by omega
  have hcw : calculateWorkingDays s e = workingCount s (k + 1) := by
    rw [calculateWorkingDays, hklen]
  set req : Nat := workingCount s (k + 1) with hreqdef
  have hreq1 : 1 ≤ req := by omega
  have hcongr : workingCount (s + d) (k + 1) = req := by
    rw [hreqdef]
    apply workingCount_congr
    intro j hj
    have hjk : (j : Int) ≤ e - s := by omega
    exact (hshift j hjk).symm
  have howd : st.originalWorkingDays = ((req : Nat) : Int) := by
    rw [hsession, hcw]
  rw [howd]
  have hstart : addDaysToDate s d = s + d := rfl
  rw [hstart]
  have := calculateEndDate_count (s + d) req hreq1 ⟨k, hk364, by omega⟩
  rw [this, hcw]

/-- The concrete long-span session used to refute C1 as universally stated:
Monday 2027-01-04 to Tuesday 2028-01-04, a 366-day interval on which no
holiday of the hardcoded set falls. -/
def longSpanBarSession : BarDragState :=
  { assignmentId := "a1"
    parentId := "t1"
    startX := 0
    originalStart := dateToDays ⟨2027, 1, 4⟩
    originalEnd := dateToDays ⟨2028, 1, 4⟩
    originalWorkingDays :=
      ((calculateWorkingDays (dateToDays ⟨2027, 1, 4⟩) (dateToDays ⟨2028, 1, 4⟩) : Nat) : Int)
    currentStart := dateToDays ⟨2027, 1, 4⟩
    currentEnd := dateToDays ⟨2028, 1, 4⟩
    hasMoved := false
    taskReference := ⟨"t1", "Feature", []⟩ }

/-- C1 counterexample: for a session spanning 366 calendar days, a pointer
move of +7 days (350 px) crosses no weekend/holiday boundary — the off-day
pattern over the whole interval is invariant under the 7-day shift — yet the
working-day span is not preserved, because `calculateEndDate` exhausts its
365-day scan bound. -/
theorem barDrag_span_not_preserved_longSpan :
    0 < longSpanBarSession.originalWorkingDays ∧
    longSpanBarSession.originalWorkingDays
      = ((calculateWorkingDays longSpanBarSession.originalStart
            longSpanBarSession.originalEnd : Nat) : Int) ∧
    deltaDaysOf longSpanBarSession 350 = 7 ∧
    longSpanBarSession.originalEnd - longSpanBarSession.originalStart = 365 ∧
    (∀ j : Nat, j ≤ 365 →
      isOffDay (longSpanBarSession.originalStart + j)
        = isOffDay (longSpanBarSession.originalStart + deltaDaysOf longSpanBarSession 350 + j)) ∧
    (handleMouseMove false longSpanBarSession 350).currentStart
        = addDaysToDate longSpanBarSession.originalStart 7 ∧
    (handleMouseMove false longSpanBarSession 350).currentEnd
        = calculateEndDate (addDaysToDate longSpanBarSession.originalStart 7)
            longSpanBarSession.originalWorkingDays ∧
    calculateWorkingDays (handleMouseMove false longSpanBarSession 350).currentStart
        (handleMouseMove false longSpanBarSession 350).currentEnd
      ≠ calculateWorkingDays longSpanBarSession.originalStart longSpanBarSession.originalEnd := by
  set_option maxRecDepth 10000 in decide

/-- The §8 scenario session: Thursday 2025-01-02 to Friday 2025-01-03
(working-day span 2), grabbed at pixel x = 0. -/
def shortDragSession : BarDragState :=
  { assignmentId := "a1"
    parentId := "t1"
    startX := 0
    originalStart := dateToDays ⟨2025, 1, 2⟩
    originalEnd := dateToDays ⟨2025, 1, 3⟩
    originalWorkingDays :=
      ((calculateWorkingDays (dateToDays ⟨2025, 1, 2⟩) (dateToDays ⟨2025, 1, 3⟩) : Nat) : Int)
    currentStart := dateToDays ⟨2025, 1, 2⟩
    currentEnd := dateToDays ⟨2025, 1, 3⟩
    hasMoved := false
    taskReference := ⟨"t1", "登入", []⟩ }

/-- Witness for `barDrag_preserves_workingDays`: dragging the two-working-day
bar `2025-01-02..2025-01-03` forward by 5 calendar days (250 px) lands on
`2025-01-07..2025-01-08` and preserves the span. -/
theorem barDrag_preserves_workingDays_witness :
    0 < shortDragSession.originalWorkingDays ∧
    calculateWorkingDays (handleMouseMove false shortDragSession 250).currentStart
        (handleMouseMove false shortDragSession 250).currentEnd
      = calculateWorkingDays shortDragSession.originalStart shortDragSession.originalEnd := by
  refine ⟨by decide, ?_⟩
  have hshift : ∀ j : Nat, (j : Int) ≤ shortDragSession.originalEnd - shortDragSession.originalStart →
      isOffDay (shortDragSession.originalStart + j)
        = isOffDay (shortDragSession.originalStart + deltaDaysOf shortDragSession 250 + j) := by
    intro j hj
    have hj1 : j ≤ 1 := by
      have : (j : Int) ≤ 1 := by
        have hd : shortDragSession.originalEnd - shortDragSession.originalStart = 1 := by decide
        omega
      exact_mod_cast this
    interval_cases j <;> decide
  exact (barDrag_preserves_workingDays shortDragSession 250 (by decide) (by decide) (by decide)
    (by decide) hshift).2.2


/-! ## C3: pointer-down plus pointer-up with zero net movement is a click -/

/-- When the row carries an assignment and both dates, a bar pointer-down
opens the fresh session built from the row. -/
theorem handleBarMouseDown_draggedBar (readOnly : Bool) (st : ChartState) (row : RenderRow)
    (clientX : Int) (assign : TaskAssignment) (sd ed : Int)
    (hassign : row.originalAssignment = some assign) (hsd : row.startDate = some sd)
    (hed : row.endDate = some ed) :
    (handleBarMouseDown readOnly st row clientX).draggedBar = some
      { assignmentId := assign.id, parentId := row.originalTask.id, startX := clientX,
        originalStart := sd, originalEnd := ed,
        originalWorkingDays := ((calculateWorkingDays sd ed : Nat) : Int),
        currentStart := sd, currentEnd := ed, hasMoved := false,
        taskReference := row.originalTask } := by
  rw [handleBarMouseDown, hassign, hsd, hed]
  by_cases hro : readOnly <;> simp [hro]

/-- C3: for a bar pointer-down (opening a fresh session) followed by pointer
moves that all round to a zero day delta and then pointer-up, the row's click
callback is invoked exactly once with the owning task and no replacement
collection is published (no assignment's dates are altered). -/
theorem barClick_fires_once_no_mutation
    (readOnly hasReorderCb : Bool) (tasks : List Task) (st : ChartState)
    (row : RenderRow) (x : Int) (moves : List Int) (b0 : BarDragState)
    (hnone : st.draggedBar = none)
    (hdown : (handleBarMouseDown readOnly st row x).draggedBar = some b0)
    (hmoves : ∀ m ∈ moves, deltaDaysOf b0 m = 0) :
    handleMouseUp readOnly hasReorderCb tasks
        (some (moves.foldl (handleMouseMove readOnly) b0))
      = ⟨[row.originalTask], none⟩ := by
  have hb0 : b0.hasMoved = false ∧ b0.taskReference = row.originalTask := by
    cases hassign : row.originalAssignment with
    | none =>
      rw [handleBarMouseDown, hassign] at hdown
      simp only at hdown
      rw [hnone] at hdown
      exact absurd hdown (by simp)
    | some assign =>
      cases hsd : row.startDate with
      | none =>
        rw [handleBarMouseDown, hassign, hsd] at hdown
        simp only at hdown
        rw [hnone] at hdown
        exact absurd hdown (by simp)
      | some sd =>
        cases hed : row.endDate with
        | none =>
          rw [handleBarMouseDown, hassign, hsd, hed] at hdown
          simp only at hdown
          rw [hnone] at hdown
          exact absurd hdown (by simp)
        | some ed =>
          rw [handleBarMouseDown_draggedBar readOnly st row x assign sd ed hassign hsd hed]
            at hdown
          injection hdown with hb
          subst hb
          exact ⟨rfl, rfl⟩
  have hfold : ∀ (ms : List Int), (∀ m ∈ ms, deltaDaysOf b0 m = 0) →
      ms.foldl (handleMouseMove readOnly) b0 = b0 := by
    intro ms
    induction ms with
    | nil => intro _; rfl
    | cons m rest ih =>
      intro hall
      have hstep : handleMouseMove readOnly b0 m = b0 := by
        rw [handleMouseMove]
        by_cases hro : readOnly
        · simp [hro]
        · simp [hro, hall m (List.mem_cons_self m rest)]
      rw [List.foldl_cons, hstep]
      exact ih (fun m' hm' => hall m' (List.mem_cons_of_mem m hm'))
  rw [hfold moves hmoves, handleMouseUp]
  simp [hb0.1, hb0.2]

/-- A sample assignment, feature and leaf row used by concrete scenarios. -/
def sampleAssignment : TaskAssignment :=
  { id := "a1", role := "FE", subLabel := some "切版"
    startDate := dateToDays ⟨2025, 1, 2⟩, endDate := dateToDays ⟨2025, 1, 3⟩
    progress := 0, color := "bg-blue-500" }

def sampleTask : Task :=
  { id := "t1", name := "登入", assignments := [sampleAssignment] }

def sampleLeafRow : RenderRow :=
  { uniqueId := "assign-a1", label := "FE", subLabel := some "切版"
    isHeader := false
    startDate := some (dateToDays ⟨2025, 1, 2⟩), endDate := some (dateToDays ⟨2025, 1, 3⟩)
    progress := some 0, color := some "bg-blue-500"
    originalTask := sampleTask, originalAssignment := some sampleAssignment }

/-- Witness for `barClick_fires_once_no_mutation`: a pointer-down on the
sample bar at x = 0, a 20 px wiggle (rounds to zero days) and a pointer-up
fire exactly one click on the owning feature and publish nothing. -/
theorem barClick_fires_once_no_mutation_witness :
    handleMouseUp false true [sampleTask]
        (some ([(20 : Int)].foldl (handleMouseMove false)
          (((handleBarMouseDown false ⟨none, none⟩ sampleLeafRow 0).draggedBar).getD default)))
      = ⟨[sampleLeafRow.originalTask], none⟩ := by
  apply barClick_fires_once_no_mutation false true [sampleTask] ⟨none, none⟩ sampleLeafRow 0
  · rfl
  · decide
  · decide

/-! ## C4: mutual exclusion of the two drag protocols -/

/-- C4 counterexample: `handleBarMouseDown` consults only the row, never the
reorder drag state, so a bar pointer-down while a reorder drag-and-drop is in
progress still opens a bar-reschedule session — the claimed mutual guard only
exists in one direction. -/
theorem barMouseDown_ignores_reorder_guard :
    ¬ (∀ (readOnly : Bool) (st : ChartState) (row : RenderRow) (x : Int),
        st.draggedItem.isSome = true → st.draggedBar = none →
        ((handleBarMouseDown readOnly st row x).draggedBar).isSome = false) := by
  intro h
  have := h false ⟨some ⟨DragType.TASK, "t9", none⟩, none⟩ sampleLeafRow 0 (by decide) (by decide)
  revert this
  decide

/-- C4 (amended): the guard exists in one direction only — starting a
row/leaf reorder drag is prevented (no drag starts and the reorder state is
unchanged) while a bar-reschedule session is open; `handleBarMouseDown` does
not consult the reorder drag state. -/
theorem dragStart_blocked_during_barDrag
    (readOnly : Bool) (st : ChartState) (row : RenderRow)
    (hbar : st.draggedBar.isSome = true) :
    handleDragStart readOnly st row = (st, false) := by
  rw [handleDragStart]
  simp [hbar]

/-- Witness for `dragStart_blocked_during_barDrag`: with the sample bar
session open, a drag start on the sample row is refused. -/
theorem dragStart_blocked_during_barDrag_witness :
    handleDragStart false ⟨none, some shortDragSession⟩ sampleLeafRow
      = (⟨none, some shortDragSession⟩, false) :=
  dragStart_blocked_during_barDrag false ⟨none, some shortDragSession⟩ sampleLeafRow (by decide)

/-! ## C8: reorder drops are pure permutations -/

/-- The JavaScript two-splice reorder: remove the element at `fromIndex` and
re-insert it at `toIndex` (`[...l].splice(fromIndex, 1)` then
`splice(toIndex, 0, removed)`). -/
def spliceMove [Inhabited α] (l : List α) (fromIndex toIndex : Nat) : List α :=
  (l.eraseIdx fromIndex).insertIdx toIndex (l.getD fromIndex default)

/-- Model of `handleDrop` of `GanttChart`: a header drop reorders Features via the
two-splice move and republishes the whole collection; a leaf drop reorders
assignments within the owning Feature only (cross-feature drops are rejected)
and republishes the collection with that one Feature replaced; every other
situation publishes nothing.  The returned value is the collection passed to
`onTaskReorder`, or `none` when no commit happens. -/
def handleDrop (readOnly hasReorderCb : Bool) (draggedItem : Option DragState)
    (tasks : List Task) (targetRow : RenderRow) : Option (List Task) :=
  if readOnly then none
  else
    match draggedItem with
    | none => none
    | some dragged =>
      if !hasReorderCb then none
      else
        match dragged.type with
        | DragType.TASK =>
          if targetRow.isHeader then
            if dragged.id = targetRow.originalTask.id then none
            else
              match tasks.findIdx? (fun t => t.id == dragged.id),
                    tasks.findIdx? (fun t => t.id == targetRow.originalTask.id) with
              | some fromIndex, some toIndex => some (spliceMove tasks fromIndex toIndex)
              | _, _ => none
          else none
        | DragType.ASSIGNMENT =>
          if targetRow.isHeader then none
          else
            match targetRow.originalAssignment with
            | none => none
            | some targetAssign =>
              if dragged.parentId ≠ some targetRow.originalTask.id then none
              else if dragged.id = targetAssign.id then none
              else
                match tasks.findIdx? (fun t => some t.id == dragged.parentId) with
                | none => none
                | some taskIndex =>
                  let task := tasks.getD taskIndex default
                  match task.assignments.findIdx? (fun a => a.id == dragged.id),
                        task.assignments.findIdx? (fun a => a.id == targetAssign.id) with
                  | some fromIndex, some toIndex =>
                    some (tasks.set taskIndex
                      { task with assignments := spliceMove task.assignments fromIndex toIndex })
                  | _, _ => none

/-- The identity and assignment-id multiset of a Feature — the data C8 says a
reorder commit must preserve per Feature. -/
def featureKey (t : Task) : String × String × Multiset String :=
  (t.id, t.name, ((t.assignments.map TaskAssignment.id : List String) : Multiset String))

theorem perm_getD_cons_eraseIdx (d : α) :
    ∀ (l : List α) (i : Nat), i < l.length → (l.getD i d :: l.eraseIdx i).Perm l := by
  intro l
  induction l with
  | nil => intro i hi; simp at hi
  | cons x xs ih =>
    intro i hi
    cases i with
    | zero => simp [List.getD]
    | succ j =>
      have hj : j < xs.length := by simpa using hi
      have hx := ih j hj
      have hswap : List.Perm (xs.getD j d :: x :: xs.eraseIdx j)
          (x :: xs.getD j d :: xs.eraseIdx j) :=
        List.Perm.swap x (xs.getD j d) _
      have hcons : List.Perm (x :: xs.getD j d :: xs.eraseIdx j) (x :: xs) :=
        List.Perm.cons x hx
      exact hswap.trans hcons

theorem perm_insertIdx (a : α) :
    ∀ (n : Nat) (l : List α), n ≤ l.length → (l.insertIdx n a).Perm (a :: l) := by
  intro n
  induction n with
  | zero => intro l _; simp [List.insertIdx]
  | succ m ih =>
    intro l hl
    cases l with
    | nil => simp at hl
    | cons x xs =>
      have hm : m ≤ xs.length := by simpa using hl
      rw [List.insertIdx_succ_cons]
      have hcons : List.Perm (x :: xs.insertIdx m a) (x :: a :: xs) :=
        List.Perm.cons x (ih xs hm)
      exact hcons.trans (List.Perm.swap a x xs)

theorem spliceMove_perm [Inhabited α] (l : List α) (fi ti : Nat)
    (hfi : fi < l.length) (hti : ti < l.length) :
    (spliceMove l fi ti).Perm l := by
  unfold spliceMove
  have h1 : (l.eraseIdx fi).length = l.length - 1 := by
    rw [List.length_eraseIdx]
    simp [hfi]
  have h2 : ti ≤ (l.eraseIdx fi).length := by omega
  exact (perm_insertIdx _ ti _ h2).trans (perm_getD_cons_eraseIdx default l fi hfi)

theorem map_featureKey_set (tasks : List Task) (i : Nat) (t' : Task) (hi : i < tasks.length)
    (hkey : featureKey t' = featureKey (tasks.getD i default)) :
    (tasks.set i t').map featureKey = tasks.map featureKey := by
  apply List.ext_getElem
  · simp
  · intro n h1 h2
    have hn2 : n < tasks.length := by simpa using h2
    simp only [List.getElem_map, List.getElem_set]
    by_cases hn : i = n
    · subst hn
      have hgetd : tasks.getD i default = tasks[i] := List.getD_eq_getElem tasks default hi
      rw [if_pos rfl, hkey, hgetd]
    · simp [hn]

/-- C8: every reorder drop commit is a pure permutation — the committed
collection preserves each Feature's identity and assignment-id multiset; a
header drop permutes the Feature list itself; a leaf drop replaces exactly one
Feature by one with permuted assignments; and a cross-feature leaf drop
commits nothing. -/
theorem handleDrop_is_permutation :
    (∀ (readOnly hasReorderCb : Bool) (item : Option DragState) (tasks : List Task)
        (targetRow : RenderRow) (newTasks : List Task),
      handleDrop readOnly hasReorderCb item tasks targetRow = some newTasks →
        (newTasks.map featureKey).Perm (tasks.map featureKey) ∧
        (∀ d : DragState, item = some d → d.type = DragType.TASK → newTasks.Perm tasks) ∧
        (∀ d : DragState, item = some d → d.type = DragType.ASSIGNMENT →
          ∃ i : Nat, ∃ t' : Task, i < tasks.length ∧ newTasks = tasks.set i t' ∧
            t'.id = (tasks.getD i default).id ∧ t'.name = (tasks.getD i default).name ∧
            t'.assignments.Perm (tasks.getD i default).assignments)) ∧
    (∀ (readOnly hasReorderCb : Bool) (d : DragState) (tasks : List Task)
        (targetRow : RenderRow),
      d.type = DragType.ASSIGNMENT → d.parentId ≠ some targetRow.originalTask.id →
      handleDrop readOnly hasReorderCb (some d) tasks targetRow = none) := by
  constructor
  · intro readOnly hasReorderCb item tasks targetRow newTasks hdrop
    rw [handleDrop.eq_def] at hdrop
    by_cases hro : readOnly
    · rw [if_pos hro] at hdrop
      exact Option.noConfusion hdrop
    rw [if_neg hro] at hdrop
    cases item with
    | none => exact Option.noConfusion hdrop
    | some dragged =>
      dsimp only at hdrop
      by_cases hcb : hasReorderCb
      case neg =>
        simp only [show hasReorderCb = false by simpa using hcb, Bool.not_false,
          if_true] at hdrop
        exact Option.noConfusion hdrop
      simp only [hcb, Bool.not_true, Bool.false_eq_true, if_false] at hdrop
      rcases dragged with ⟨dtype, did, dpar⟩
      cases dtype with
      | TASK =>
        dsimp only at hdrop
        by_cases hhd : targetRow.isHeader
        case neg =>
          simp only [show targetRow.isHeader = false by simpa using hhd,
            Bool.false_eq_true, if_false] at hdrop
          exact Option.noConfusion hdrop
        simp only [hhd, if_true] at hdrop
        by_cases hid : did = targetRow.originalTask.id
        · rw [if_pos hid] at hdrop
          exact Option.noConfusion hdrop
        rw [if_neg hid] at hdrop
        cases hfi : tasks.findIdx? (fun t => t.id == did) with
        | none =>
          rw [hfi] at hdrop
          exact Option.noConfusion hdrop
        | some fromIndex =>
          rw [hfi] at hdrop
          cases hti : tasks.findIdx? (fun t => t.id == targetRow.originalTask.id) with
          | none =>
            rw [hti] at hdrop
            exact Option.noConfusion hdrop
          | some toIndex =>
            rw [hti] at hdrop
            dsimp only at hdrop
            injection hdrop with hnew
            have hfib : fromIndex < tasks.length :=
              (List.findIdx?_eq_some_iff_findIdx_eq.mp hfi).1
            have htib : toIndex < tasks.length :=
              (List.findIdx?_eq_some_iff_findIdx_eq.mp hti).1
            have hperm : newTasks.Perm tasks := by
              rw [← hnew]
              exact spliceMove_perm tasks fromIndex toIndex hfib htib
            refine ⟨hperm.map featureKey, ?_, ?_⟩
            · intro d _ _
              exact hperm
            · intro d hd htyA
              injection hd with hd'
              rw [← hd'] at htyA
              exact absurd htyA (by simp)
      | ASSIGNMENT =>
        dsimp only at hdrop
        by_cases hhd : targetRow.isHeader
        case pos =>
          simp only [hhd, if_true] at hdrop
          exact Option.noConfusion hdrop
        simp only [show targetRow.isHeader = false by simpa using hhd,
          Bool.false_eq_true, if_false] at hdrop
        cases hta : targetRow.originalAssignment with
        | none =>
          rw [hta] at hdrop
          exact Option.noConfusion hdrop
        | some targetAssign =>
          rw [hta] at hdrop
          dsimp only at hdrop
          by_cases hpar : dpar = some targetRow.originalTask.id
          case neg =>
            rw [if_pos hpar] at hdrop
            exact Option.noConfusion hdrop
          rw [if_neg (fun h => h hpar)] at hdrop
          by_cases hid : did = targetAssign.id
          · rw [if_pos hid] at hdrop
            exact Option.noConfusion hdrop
          rw [if_neg hid] at hdrop
          cases htk : tasks.findIdx? (fun t => some t.id == dpar) with
          | none =>
            rw [htk] at hdrop
            exact Option.noConfusion hdrop
          | some taskIndex =>
            rw [htk] at hdrop
            dsimp only at hdrop
            cases hfi : (tasks.getD taskIndex default).assignments.findIdx?
                (fun a => a.id == did) with
            | none =>
              rw [hfi] at hdrop
              exact Option.noConfusion hdrop
            | some fromIndex =>
              rw [hfi] at hdrop
              cases hti : (tasks.getD taskIndex default).assignments.findIdx?
                  (fun a => a.id == targetAssign.id) with
              | none =>
                rw [hti] at hdrop
                exact Option.noConfusion hdrop
              | some toIndex =>
                rw [hti] at hdrop
                dsimp only at hdrop
                injection hdrop with hnew
                have htkb : taskIndex < tasks.length :=
                  (List.findIdx?_eq_some_iff_findIdx_eq.mp htk).1
                have hfib : fromIndex < (tasks.getD taskIndex default).assignments.length :=
                  (List.findIdx?_eq_some_iff_findIdx_eq.mp hfi).1
                have htib : toIndex < (tasks.getD taskIndex default).assignments.length :=
                  (List.findIdx?_eq_some_iff_findIdx_eq.mp hti).1
                have hassignperm :
                    (spliceMove (tasks.getD taskIndex default).assignments fromIndex toIndex).Perm
                      (tasks.getD taskIndex default).assignments :=
                  spliceMove_perm _ fromIndex toIndex hfib htib
                have hkey : featureKey
                    { tasks.getD taskIndex default with
                      assignments := spliceMove (tasks.getD taskIndex default).assignments
                        fromIndex toIndex }
                    = featureKey (tasks.getD taskIndex default) := by
                  rw [featureKey, featureKey]
                  refine congrArg (fun m => ((tasks.getD taskIndex default).id,
                    (tasks.getD taskIndex default).name, m)) ?_
                  exact Multiset.coe_eq_coe.mpr (hassignperm.map TaskAssignment.id)
                have hmapeq : (tasks.set taskIndex
                      { tasks.getD taskIndex default with
                        assignments := spliceMove (tasks.getD taskIndex default).assignments
                          fromIndex toIndex }).map featureKey
                    = tasks.map featureKey :=
                  map_featureKey_set tasks taskIndex _ htkb hkey
                refine ⟨?_, ?_, ?_⟩
                · rw [← hnew, hmapeq]
                · intro d hd htyT
                  injection hd with hd'
                  rw [← hd'] at htyT
                  exact absurd htyT (by simp)
                · intro d _ _
                  exact ⟨taskIndex,
                    { tasks.getD taskIndex default with
                      assignments := spliceMove (tasks.getD taskIndex default).assignments
                        fromIndex toIndex },
                    htkb, hnew.symm, rfl, rfl, hassignperm⟩
  · intro readOnly hasReorderCb d tasks targetRow htype hpar
    rw [handleDrop.eq_def]
    by_cases hro : readOnly
    · rw [if_pos hro]
    · rw [if_neg hro]
      dsimp only
      by_cases hcb : hasReorderCb
      · simp only [hcb, Bool.not_true, Bool.false_eq_true, if_false]
        rcases d with ⟨dtype, did, dpar⟩
        cases htype
        dsimp only
        by_cases hhd : targetRow.isHeader
        · rw [if_pos hhd]
        · simp only [show targetRow.isHeader = false by simpa using hhd,
            Bool.false_eq_true, if_false]
          cases targetRow.originalAssignment with
          | none => rfl
          | some targetAssign =>
            dsimp only
            rw [if_pos hpar]
      · simp only [show hasReorderCb = false by simpa using hcb, Bool.not_false, if_true]

def sampleTask2 : Task :=
  { id := "t2", name := "購物車", assignments := [] }

def sampleHeaderRow2 : RenderRow :=
  { uniqueId := "feature-t2", label := "購物車", subLabel := none
    isHeader := true, startDate := none, endDate := none, progress := none, color := none
    originalTask := sampleTask2, originalAssignment := none }

/-- Witness for `handleDrop_is_permutation`: dropping the header of feature
`t1` onto the header of feature `t2` commits `[t2, t1]`, whose per-feature
keys are a permutation of the original `[t1, t2]`. -/
theorem handleDrop_is_permutation_witness :
    (([sampleTask2, sampleTask]).map featureKey).Perm
      (([sampleTask, sampleTask2]).map featureKey) :=
  (handleDrop_is_permutation.1 false true (some ⟨DragType.TASK, "t1", none⟩)
    [sampleTask, sampleTask2] sampleHeaderRow2 [sampleTask2, sampleTask] (by decide)).1

/-! ## C7: the row projection and its ByRole fan-out

String case mapping is modelled on ASCII (role tokens are ASCII or Chinese,
and Chinese has no case); `jsTrim`/`jsToUpper`/`jsToLower` are executable
models of `trim()`/`toUpperCase()`/`toLowerCase()`.  JavaScript object keys
are modelled as an insertion-ordered association list, `zh-TW` locale
collation as code-point comparison, and `Array.prototype.sort` as a stable
comparison sort; the claims proved below are independent of row order.  The
`Math.random()` suffix of the ByRole leaf `uniqueId` is omitted (it is never
read). -/

def jsTrim (s : String) : String :=
  ⟨((s.data.dropWhile Char.isWhitespace).reverse.dropWhile Char.isWhitespace).reverse⟩

def jsToUpper (s : String) : String :=
  ⟨s.data.map (fun c =>
    if 97 ≤ c.toNat && c.toNat ≤ 122 then Char.ofNat (c.toNat - 32) else c)⟩

def jsToLower (s : String) : String :=
  ⟨s.data.map (fun c =>
    if 65 ≤ c.toNat && c.toNat ≤ 90 then Char.ofNat (c.toNat + 32) else c)⟩

/-- Model of `GroupBy` of `types.ts` (`None` = by feature, `Assignee` = by role). -/
inductive GroupBy where
  | None : GroupBy
  | Assignee : GroupBy
deriving DecidableEq, Repr

/-- Model of `addToGroup` of the ByRole projection: push onto an existing bucket, or
append a fresh bucket in insertion order. -/
def addToGroup (groups : List (String × List (Task × TaskAssignment)))
    (groupName : String) (item : Task × TaskAssignment) :
    List (String × List (Task × TaskAssignment)) :=
  match groups with
  | [] => [(groupName, [item])]
  | (k, v) :: rest =>
    if k = groupName then (k, v ++ [item]) :: rest
    else (k, v) :: addToGroup rest groupName item

/-- The bucket names one assignment fans into: `RD` into `FE` and `BE`,
`ALL`/`全體` into the five core roles, anything else into its own trimmed
name (the source's nested `addToGroup` calls, expressed as a fold over this
list). -/
def roleBuckets (assign : TaskAssignment) : List String :=
  let rawRole := if assign.role = "" then "未指派" else assign.role
  let r := jsToUpper (jsTrim rawRole)
  if r = "RD" then ["FE", "BE"]
  else if r = "ALL" ∨ r = "全體" then ["FE", "BE", "UI", "UX", "PM"]
  else [jsTrim rawRole]

def insertAssignment (groups : List (String × List (Task × TaskAssignment)))
    (task : Task) (assign : TaskAssignment) :
    List (String × List (Task × TaskAssignment)) :=
  (roleBuckets assign).foldl (fun g name => addToGroup g name (task, assign)) groups

/-- The `groups` record built by the ByRole branch of `rows`. -/
def buildGroups (tasks : List Task) : List (String × List (Task × TaskAssignment)) :=
  tasks.foldl (fun g task =>
    task.assignments.foldl (fun g' assign => insertAssignment g' task assign) g) []

/-- Model of `priorityRoles` of the ByRole key comparator. -/
def priorityRoles : List String :=
  ["內部最後階段", "Last Phase", "PM", "UI", "UX", "FE", "BE", "QA", "RD"]

/-- JavaScript `Array.prototype.findIndex`: first matching index or `-1`. -/
def jsFindIndexInt (p : α → Bool) : List α → Int
  | [] => -1
  | x :: xs =>
    if p x then 0
    else
      let r := jsFindIndexInt p xs
      if r = -1 then -1 else r + 1

/-- The `^(\d+)` match of the comparator: the value of a leading digit run. -/
def leadingNumber (s : String) : Option Nat :=
  let ds := s.data.takeWhile Char.isDigit
  if ds.isEmpty then none
  else some (ds.foldl (fun n c => n * 10 + (c.toNat - 48)) 0)

/-- Model of `localeCompare('zh-TW')`, modelled as code-point comparison. -/
def localeCompareModel (a b : String) : Int :=
  match compare a b with
  | Ordering.lt => -1
  | Ordering.eq => 0
  | Ordering.gt => 1

/-- The sort comparator of the ByRole branch: known roles first in priority
order, then numeric-leading names ascending, then locale comparison. -/
def roleCompare (a b : String) : Int :=
  let cleanA := jsTrim a
  let cleanB := jsTrim b
  let idxA := jsFindIndexInt (fun p => jsToLower p == jsToLower cleanA) priorityRoles
  let idxB := jsFindIndexInt (fun p => jsToLower p == jsToLower cleanB) priorityRoles
  if idxA ≠ -1 ∧ idxB ≠ -1 then idxA - idxB
  else if idxA ≠ -1 then -1
  else if idxB ≠ -1 then 1
  else
    match leadingNumber cleanA, leadingNumber cleanB with
    | some numA, some numB => (numA : Int) - (numB : Int)
    | some _, none => -1
    | none, some _ => 1
    | none, none => localeCompareModel cleanA cleanB

/-- Stable insertion of a key into a comparator-sorted list. -/
def insertSortedKey (cmp : String → String → Int) (x : String) : List String → List String
  | [] => [x]
  | y :: ys => if cmp x y < 0 then x :: y :: ys else y :: insertSortedKey cmp x ys

/-- Model of `Object.keys(groups).sort(cmp)`: a stable comparison sort. -/
def jsSortKeys (cmp : String → String → Int) : List String → List String
  | [] => []
  | x :: xs => insertSortedKey cmp x (jsSortKeys cmp xs)

/-- Model of `groups[roleName]` (always a hit for keys of the group record). -/
def lookupGroup (groups : List (String × List (Task × TaskAssignment)))
    (k : String) : List (Task × TaskAssignment) :=
  match groups.find? (fun e => e.1 == k) with
  | some e => e.2
  | none => []

/-- The ByRole leaf label: the feature name, prefixed by the bracketed
original role when that role was a fan-out token. -/
def leafLabelByRole (task : Task) (assign : TaskAssignment) : String :=
  let r := jsToUpper assign.role
  let isSpecial := r == "RD" || r == "ALL" || r == "全體"
  (if isSpecial then "[" ++ assign.role ++ "] " else "") ++ task.name

/-- The displayed start of a leaf bar: the live dragged value when the bar
drag session owns this assignment, else the stored value. -/
def liveStart (draggedBar : Option BarDragState) (assign : TaskAssignment) : Int :=
  match draggedBar with
  | some b => if b.assignmentId == assign.id then b.currentStart else assign.startDate
  | none => assign.startDate

/-- The displayed end of a leaf bar (live override seam, as `liveStart`). -/
def liveEnd (draggedBar : Option BarDragState) (assign : TaskAssignment) : Int :=
  match draggedBar with
  | some b => if b.assignmentId == assign.id then b.currentEnd else assign.endDate
  | none => assign.endDate

/-- One ByRole section: nothing for an empty bucket, else a header row
followed by one leaf row per item. -/
def roleSection (draggedBar : Option BarDragState)
    (groups : List (String × List (Task × TaskAssignment)))
    (roleName : String) : List RenderRow :=
  let items := lookupGroup groups roleName
  if items.length = 0 then []
  else
    [{ uniqueId := "role-group-" ++ roleName, label := roleName,
       subLabel := some (toString items.length ++ " 項任務"), isHeader := true,
       startDate := none, endDate := none, progress := none, color := none,
       originalTask := (items.headD (default, default)).1,
       originalAssignment := none }]
      ++ items.map (fun item =>
          { uniqueId := "role-item-" ++ roleName ++ "-" ++ item.2.id
            label := leafLabelByRole item.1 item.2
            subLabel := some (item.2.subLabel.getD "")
            isHeader := false
            startDate := some (liveStart draggedBar item.2)
            endDate := some (liveEnd draggedBar item.2)
            progress := some item.2.progress
            color := some item.2.color
            originalTask := item.1
            originalAssignment := some item.2 })

/-- The `rows` projection of `GanttChart`: ByFeature mode emits one header
per feature followed by its assignment leaves in stored order; ByRole mode
fans assignments into buckets, sorts the bucket names and emits one section
per bucket. -/
def rows (groupBy : GroupBy) (tasks : List Task) (draggedBar : Option BarDragState) :
    List RenderRow :=
  match groupBy with
  | GroupBy.None =>
    tasks.foldl (fun result task =>
      result
        ++ [{ uniqueId := "feature-" ++ task.id, label := task.name, subLabel := none,
              isHeader := true, startDate := none, endDate := none, progress := none,
              color := none, originalTask := task, originalAssignment := none }]
        ++ task.assignments.map (fun assign =>
            { uniqueId := "assign-" ++ assign.id
              label := if assign.role = "" then "未指派" else assign.role
              subLabel := some (assign.subLabel.getD "")
              isHeader := false
              startDate := some (liveStart draggedBar assign)
              endDate := some (liveEnd draggedBar assign)
              progress := some assign.progress
              color := some assign.color
              originalTask := task
              originalAssignment := some assign })) []
  | GroupBy.Assignee =>
    let groups := buildGroups tasks
    let sortedKeys := jsSortKeys roleCompare (groups.map Prod.fst)
    sortedKeys.foldl (fun result roleName => result ++ roleSection draggedBar groups roleName) []

/-- Number of leaf (non-header) rows of a projection. -/
def countLeafRows (rs : List RenderRow) : Nat :=
  rs.countP (fun r => !r.isHeader)

/-- Total number of assignments across the task list. -/
def totalAssignments (tasks : List Task) : Nat :=
  (tasks.map (fun t => t.assignments.length)).sum

/-- Whether the assignment's trimmed, case-normalised role is a fan-out token
(`RD`, `ALL` or `全體`). -/
def isSpecialRole (assign : TaskAssignment) : Bool :=
  let rawRole := if assign.role = "" then "未指派" else assign.role
  let r := jsToUpper (jsTrim rawRole)
  r == "RD" || r == "ALL" || r == "全體"

/-- Total number of items across all buckets. -/
def groupsSize (g : List (String × List (Task × TaskAssignment))) : Nat :=
  (g.map (fun e => e.2.length)).sum

def keysOf (g : List (String × List (Task × TaskAssignment))) : List String :=
  g.map Prod.fst

theorem groupsSize_addToGroup (g : List (String × List (Task × TaskAssignment)))
    (name : String) (item : Task × TaskAssignment) :
    groupsSize (addToGroup g name item) = groupsSize g + 1 := by
  induction g with
  | nil => simp [addToGroup, groupsSize]
  | cons e rest ih =>
    obtain ⟨k, v⟩ := e
    rw [addToGroup]
    by_cases hk : k = name
    · rw [if_pos hk]
      simp only [groupsSize, List.map_cons, List.sum_cons, List.length_append,
        List.length_singleton]
      omega
    · rw [if_neg hk]
      show groupsSize ((k, v) :: addToGroup rest name item) = groupsSize ((k, v) :: rest) + 1
      simp only [groupsSize, List.map_cons, List.sum_cons]
      have hih : (List.map (fun e => e.2.length) (addToGroup rest name item)).sum
          = (List.map (fun e => e.2.length) rest).sum + 1 := ih
      omega

theorem groupsSize_foldl_addToGroup (item : Task × TaskAssignment) :
    ∀ (names : List String) (g : List (String × List (Task × TaskAssignment))),
      groupsSize (names.foldl (fun acc name => addToGroup acc name item) g)
        = groupsSize g + names.length := by
  intro names
  induction names with
  | nil => intro g; simp
  | cons n rest ih =>
    intro g
    rw [List.foldl_cons, ih (addToGroup g n item), groupsSize_addToGroup]
    simp
    omega

theorem groupsSize_insertAssignment (g : List (String × List (Task × TaskAssignment)))
    (task : Task) (assign : TaskAssignment) :
    groupsSize (insertAssignment g task assign) = groupsSize g + (roleBuckets assign).length := by
  rw [insertAssignment, groupsSize_foldl_addToGroup]

theorem keysOf_addToGroup (g : List (String × List (Task × TaskAssignment)))
    (name : String) (item : Task × TaskAssignment) :
    keysOf (addToGroup g name item)
      = if name ∈ keysOf g then keysOf g else keysOf g ++ [name] := by
  induction g with
  | nil => simp [addToGroup, keysOf]
  | cons e rest ih =>
    obtain ⟨k, v⟩ := e
    rw [addToGroup]
    by_cases hk : k = name
    · subst hk
      simp [keysOf]
    · rw [if_neg hk]
      have hiff : (name ∈ keysOf ((k, v) :: rest)) ↔ (name ∈ keysOf rest) := by
        simp [keysOf, Ne.symm hk]
      by_cases hin : name ∈ keysOf rest
      · rw [if_pos (hiff.mpr hin)]
        show k :: keysOf (addToGroup rest name item) = keysOf ((k, v) :: rest)
        rw [ih, if_pos hin]
        rfl
      · rw [if_neg (fun h => hin (hiff.mp h))]
        show k :: keysOf (addToGroup rest name item) = keysOf ((k, v) :: rest) ++ [name]
        rw [ih, if_neg hin]
        rfl

theorem nodupKeys_addToGroup {g : List (String × List (Task × TaskAssignment))}
    (hnd : (keysOf g).Nodup) (name : String) (item : Task × TaskAssignment) :
    (keysOf (addToGroup g name item)).Nodup := by
  rw [keysOf_addToGroup]
  by_cases hin : name ∈ keysOf g
  · simpa [hin] using hnd
  · simp only [hin, if_neg, ite_false]
    rw [List.nodup_append]
    exact ⟨hnd, List.nodup_singleton name, by simpa using hin⟩

theorem nodupKeys_foldl_addToGroup (item : Task × TaskAssignment) :
    ∀ (names : List String) {g : List (String × List (Task × TaskAssignment))},
      (keysOf g).Nodup →
      (keysOf (names.foldl (fun acc name => addToGroup acc name item) g)).Nodup := by
  intro names
  induction names with
  | nil => intro g h; simpa using h
  | cons n rest ih =>
    intro g h
    rw [List.foldl_cons]
    exact ih (nodupKeys_addToGroup h n item)

theorem lookupGroup_cons_self (k : String) (v : List (Task × TaskAssignment))
    (rest : List (String × List (Task × TaskAssignment))) :
    lookupGroup ((k, v) :: rest) k = v := by
  simp [lookupGroup, List.find?]

theorem lookupGroup_cons_ne (k k' : String) (v : List (Task × TaskAssignment))
    (rest : List (String × List (Task × TaskAssignment))) (h : k ≠ k') :
    lookupGroup ((k, v) :: rest) k' = lookupGroup rest k' := by
  have hb : (k == k') = false := by simp [h]
  simp [lookupGroup, List.find?, hb]

/-- For distinct bucket keys, summing the looked-up bucket sizes over the key
list recovers the total number of items. -/
theorem lookupGroup_sum : ∀ {g : List (String × List (Task × TaskAssignment))},
    (keysOf g).Nodup →
    ((keysOf g).map (fun k => (lookupGroup g k).length)).sum = groupsSize g := by
  intro g
  induction g with
  | nil => intro _; rfl
  | cons e rest ih =>
    intro hnd
    obtain ⟨k, v⟩ := e
    have hk_notin : k ∉ keysOf rest := by
      have := hnd
      rw [keysOf, List.map_cons, List.nodup_cons] at this
      exact this.1
    have hnd_rest : (keysOf rest).Nodup := by
      have := hnd
      rw [keysOf, List.map_cons, List.nodup_cons] at this
      exact this.2
    show ((k :: keysOf rest).map (fun k' => (lookupGroup ((k, v) :: rest) k').length)).sum
        = groupsSize ((k, v) :: rest)
    rw [List.map_cons, List.sum_cons, lookupGroup_cons_self]
    have hcongr : (keysOf rest).map (fun k' => (lookupGroup ((k, v) :: rest) k').length)
        = (keysOf rest).map (fun k' => (lookupGroup rest k').length) := by
      apply List.map_congr_left
      intro k' hk'
      have hne : k ≠ k' := fun h => hk_notin (h ▸ hk')
      rw [lookupGroup_cons_ne k k' v rest hne]
    rw [hcongr, ih hnd_rest]
    simp [groupsSize]

theorem insertSortedKey_perm (cmp : String → String → Int) (x : String) :
    ∀ (l : List String), (insertSortedKey cmp x l).Perm (x :: l) := by
  intro l
  induction l with
  | nil => exact List.Perm.refl _
  | cons y ys ih =>
    rw [insertSortedKey]
    by_cases hc : cmp x y < 0
    · rw [if_pos hc]
    · rw [if_neg hc]
      exact (List.Perm.cons y ih).trans (List.Perm.swap x y ys)

theorem jsSortKeys_perm (cmp : String → String → Int) :
    ∀ (l : List String), (jsSortKeys cmp l).Perm l := by
  intro l
  induction l with
  | nil => exact List.Perm.refl _
  | cons x xs ih =>
    rw [jsSortKeys]
    exact (insertSortedKey_perm cmp x (jsSortKeys cmp xs)).trans (List.Perm.cons x ih)

theorem countLeafRows_append (a b : List RenderRow) :
    countLeafRows (a ++ b) = countLeafRows a + countLeafRows b := by
  simp [countLeafRows, List.countP_append]

/-- Each ByRole section contributes exactly its bucket's item count to the
leaf-row count (the header row is not a leaf). -/
theorem countLeafRows_roleSection (draggedBar : Option BarDragState)
    (groups : List (String × List (Task × TaskAssignment))) (roleName : String) :
    countLeafRows (roleSection draggedBar groups roleName)
      = (lookupGroup groups roleName).length := by
  rw [roleSection]
  by_cases hlen : (lookupGroup groups roleName).length = 0
  · simp [hlen, countLeafRows]
  · rw [if_neg hlen, countLeafRows_append]
    have hone : ∀ (r : RenderRow), r.isHeader = true → countLeafRows [r] = 0 := by
      intro r hr
      simp [countLeafRows, hr]
    have hmap : ∀ (f : Task × TaskAssignment → RenderRow),
        (∀ x, (f x).isHeader = false) →
        countLeafRows ((lookupGroup groups roleName).map f)
          = (lookupGroup groups roleName).length := by
      intro f hf
      rw [countLeafRows, List.countP_map, List.countP_eq_length]
      intro a _
      simp [Function.comp, hf a]
    rw [hone _ rfl, hmap _ (fun x => rfl)]
    omega

theorem countLeafRows_foldl_sections (draggedBar : Option BarDragState)
    (groups : List (String × List (Task × TaskAssignment))) :
    ∀ (keys : List String) (init : List RenderRow),
      countLeafRows (keys.foldl (fun result roleName =>
          result ++ roleSection draggedBar groups roleName) init)
        = countLeafRows init + (keys.map (fun k => (lookupGroup groups k).length)).sum := by
  intro keys
  induction keys with
  | nil => intro init; simp
  | cons k ks ih =>
    intro init
    rw [List.foldl_cons, ih, countLeafRows_append, countLeafRows_roleSection]
    simp
    omega

theorem groupsSize_assignFold (task : Task) :
    ∀ (assigns : List TaskAssignment) (g : List (String × List (Task × TaskAssignment))),
      groupsSize (assigns.foldl (fun g' a => insertAssignment g' task a) g)
        = groupsSize g + (assigns.map (fun a => (roleBuckets a).length)).sum := by
  intro assigns
  induction assigns with
  | nil => intro g; simp
  | cons a rest ih =>
    intro g
    rw [List.foldl_cons, ih, groupsSize_insertAssignment]
    simp
    omega

theorem groupsSize_taskFold :
    ∀ (tasks : List Task) (g : List (String × List (Task × TaskAssignment))),
      groupsSize (tasks.foldl (fun acc task =>
          task.assignments.foldl (fun g' assign => insertAssignment g' task assign) acc) g)
        = groupsSize g
          + (tasks.map (fun t => (t.assignments.map (fun a => (roleBuckets a).length)).sum)).sum := by
  intro tasks
  induction tasks with
  | nil => intro g; simp
  | cons t rest ih =>
    intro g
    rw [List.foldl_cons, ih, groupsSize_assignFold]
    simp
    omega

theorem groupsSize_buildGroups (tasks : List Task) :
    groupsSize (buildGroups tasks)
      = (tasks.map (fun t => (t.assignments.map (fun a => (roleBuckets a).length)).sum)).sum := by
  rw [buildGroups, groupsSize_taskFold]
  simp [groupsSize]

theorem nodupKeys_insertAssignment {g : List (String × List (Task × TaskAssignment))}
    (h : (keysOf g).Nodup) (task : Task) (assign : TaskAssignment) :
    (keysOf (insertAssignment g task assign)).Nodup :=
  nodupKeys_foldl_addToGroup (task, assign) (roleBuckets assign) h

theorem nodupKeys_assignFold (task : Task) :
    ∀ (assigns : List TaskAssignment) {g : List (String × List (Task × TaskAssignment))},
      (keysOf g).Nodup →
      (keysOf (assigns.foldl (fun g' a => insertAssignment g' task a) g)).Nodup := by
  intro assigns
  induction assigns with
  | nil => intro g h; simpa using h
  | cons a rest ih =>
    intro g h
    rw [List.foldl_cons]
    exact ih (nodupKeys_insertAssignment h task a)

theorem nodupKeys_buildGroups (tasks : List Task) :
    (keysOf (buildGroups tasks)).Nodup := by
  rw [buildGroups]
  have hgen : ∀ (ts : List Task) {g : List (String × List (Task × TaskAssignment))},
      (keysOf g).Nodup →
      (keysOf (ts.foldl (fun acc task =>
          task.assignments.foldl (fun g' assign => insertAssignment g' task assign) acc) g)).Nodup := by
    intro ts
    induction ts with
    | nil => intro g h; simpa using h
    | cons t rest ih =>
      intro g h
      rw [List.foldl_cons]
      exact ih (nodupKeys_assignFold t t.assignments h)
  exact hgen tasks (by simp [keysOf])

theorem roleBuckets_length_pos (a : TaskAssignment) : 1 ≤ (roleBuckets a).length := by
  rw [roleBuckets]
  split_ifs <;> simp

theorem roleBuckets_length_eq_one_iff (a : TaskAssignment) :
    (roleBuckets a).length = 1 ↔ isSpecialRole a = false := by
  rw [roleBuckets, isSpecialRole]
  set r := jsToUpper (jsTrim (if a.role = "" then "未指派" else a.role)) with hr
  by_cases h1 : r = "RD"
  · rw [if_pos h1]
    simp [h1]
  · rw [if_neg h1]
    by_cases h2 : r = "ALL" ∨ r = "全體"
    · rw [if_pos h2]
      rcases h2 with h2 | h2 <;> simp [h1, h2]
    · rw [if_neg h2]
      have hne1 : ¬ r = "ALL" := fun h => h2 (Or.inl h)
      have hne2 : ¬ r = "全體" := fun h => h2 (Or.inr h)
      simp [beq_iff_eq, h1, hne1, hne2]

theorem length_le_sum_map_of_one_le (f : α → Nat) :
    ∀ (l : List α), (∀ x ∈ l, 1 ≤ f x) → l.length ≤ (l.map f).sum := by
  intro l
  induction l with
  | nil => intro _; simp
  | cons x xs ih =>
    intro h
    have hx := h x (List.mem_cons_self x xs)
    have hxs := ih (fun y hy => h y (List.mem_cons_of_mem x hy))
    simp only [List.length_cons, List.map_cons, List.sum_cons]
    omega

theorem sum_map_eq_length_iff (f : α → Nat) :
    ∀ (l : List α), (∀ x ∈ l, 1 ≤ f x) →
      ((l.map f).sum = l.length ↔ ∀ x ∈ l, f x = 1) := by
  intro l
  induction l with
  | nil => intro _; simp
  | cons x xs ih =>
    intro h
    have hx := h x (List.mem_cons_self x xs)
    have hxs := ih (fun y hy => h y (List.mem_cons_of_mem x hy))
    have hlen := length_le_sum_map_of_one_le f xs (fun y hy => h y (List.mem_cons_of_mem x hy))
    simp only [List.map_cons, List.sum_cons, List.length_cons]
    constructor
    · intro heq
      have hfx : f x = 1 := by omega
      have hsum : (xs.map f).sum = xs.length := by omega
      intro y hy
      rcases List.mem_cons.mp hy with rfl | hy'
      · exact hfx
      · exact (hxs.mp hsum) y hy'
    · intro hall
      have hfx : f x = 1 := hall x (List.mem_cons_self x xs)
      have hsum : (xs.map f).sum = xs.length :=
        hxs.mpr (fun y hy => hall y (List.mem_cons_of_mem x hy))
      omega

theorem sum_map_le_sum_map (f g : α → Nat) :
    ∀ (l : List α), (∀ x ∈ l, f x ≤ g x) → (l.map f).sum ≤ (l.map g).sum := by
  intro l
  induction l with
  | nil => intro _; simp
  | cons x xs ih =>
    intro h
    have hx := h x (List.mem_cons_self x xs)
    have hxs := ih (fun y hy => h y (List.mem_cons_of_mem x hy))
    simp only [List.map_cons, List.sum_cons]
    omega

theorem sum_map_eq_sum_map_iff (f g : α → Nat) :
    ∀ (l : List α), (∀ x ∈ l, f x ≤ g x) →
      ((l.map g).sum = (l.map f).sum ↔ ∀ x ∈ l, g x = f x) := by
  intro l
  induction l with
  | nil => intro _; simp
  | cons x xs ih =>
    intro h
    have hx := h x (List.mem_cons_self x xs)
    have hxs := ih (fun y hy => h y (List.mem_cons_of_mem x hy))
    have hle := sum_map_le_sum_map f g xs (fun y hy => h y (List.mem_cons_of_mem x hy))
    simp only [List.map_cons, List.sum_cons]
    constructor
    · intro heq
      have hgx : g x = f x := by omega
      have hsum : (xs.map g).sum = (xs.map f).sum := by omega
      intro y hy
      rcases List.mem_cons.mp hy with rfl | hy'
      · exact hgx
      · exact (hxs.mp hsum) y hy'
    · intro hall
      have hgx : g x = f x := hall x (List.mem_cons_self x xs)
      have hsum : (xs.map g).sum = (xs.map f).sum :=
        hxs.mpr (fun y hy => hall y (List.mem_cons_of_mem x hy))
      omega

/-- C7: in ByRole mode the number of leaf rows is at least the total number
of assignments, with equality exactly when no assignment's trimmed,
case-insensitive role is a fan-out token (`RD`, or `ALL`/`全體`). -/
theorem byRole_leafCount_ge_assignments (tasks : List Task) (draggedBar : Option BarDragState) :
    totalAssignments tasks ≤ countLeafRows (rows GroupBy.Assignee tasks draggedBar) ∧
    (countLeafRows (rows GroupBy.Assignee tasks draggedBar) = totalAssignments tasks ↔
      ∀ t ∈ tasks, ∀ a ∈ t.assignments, isSpecialRole a = false) := by
  have hrows : countLeafRows (rows GroupBy.Assignee tasks draggedBar)
      = groupsSize (buildGroups tasks) := by
    rw [rows]
    rw [countLeafRows_foldl_sections]
    have hkeys : (buildGroups tasks).map Prod.fst = keysOf (buildGroups tasks) := rfl
    rw [hkeys]
    have hperm := jsSortKeys_perm roleCompare (keysOf (buildGroups tasks))
    have hsum := (hperm.map (fun k => (lookupGroup (buildGroups tasks) k).length)).sum_eq
    rw [hsum, lookupGroup_sum (nodupKeys_buildGroups tasks)]
    simp [countLeafRows]
  have hinner_le : ∀ t : Task,
      t.assignments.length ≤ (t.assignments.map (fun a => (roleBuckets a).length)).sum :=
    fun t => length_le_sum_map_of_one_le _ t.assignments
      (fun a _ => roleBuckets_length_pos a)
  have hle : totalAssignments tasks
      ≤ (tasks.map (fun t => (t.assignments.map (fun a => (roleBuckets a).length)).sum)).sum := by
    rw [totalAssignments]
    exact sum_map_le_sum_map _ _ tasks (fun t _ => hinner_le t)
  constructor
  · rw [hrows, groupsSize_buildGroups]
    exact hle
  · rw [hrows, groupsSize_buildGroups]
    have houter := sum_map_eq_sum_map_iff (fun t : Task => t.assignments.length)
      (fun t : Task => (t.assignments.map (fun a => (roleBuckets a).length)).sum)
      tasks (fun t _ => hinner_le t)
    rw [totalAssignments]
    rw [houter]
    constructor
    · intro hall t ht a ha
      have hinner := (sum_map_eq_length_iff (fun a => (roleBuckets a).length)
        t.assignments (fun a _ => roleBuckets_length_pos a)).mp (hall t ht)
      exact (roleBuckets_length_eq_one_iff a).mp (hinner a ha)
    · intro hall t ht
      exact (sum_map_eq_length_iff (fun a => (roleBuckets a).length)
        t.assignments (fun a _ => roleBuckets_length_pos a)).mpr
        (fun a ha => (roleBuckets_length_eq_one_iff a).mpr (hall t ht a ha))

/-- Witness for `byRole_leafCount_ge_assignments`, at the sample task list. -/
theorem byRole_leafCount_ge_assignments_witness :
    totalAssignments [sampleTask] ≤ countLeafRows (rows GroupBy.Assignee [sampleTask] none) ∧
    (countLeafRows (rows GroupBy.Assignee [sampleTask] none) = totalAssignments [sampleTask] ↔
      ∀ t ∈ [sampleTask], ∀ a ∈ t.assignments, isSpecialRole a = false) :=
  byRole_leafCount_ge_assignments [sampleTask] none

/-! ## C10: `getColorForRole` always returns a palette member -/

/-- Model of `TAILWIND_COLORS` of `types.ts`. -/
def TAILWIND_COLORS : List String :=
  ["bg-blue-500",
   "bg-emerald-500",
   "bg-indigo-500",
   "bg-rose-500",
   "bg-amber-500",
   "bg-purple-500",
   "bg-cyan-500",
   "bg-fuchsia-500",
   "bg-orange-500",
   "bg-teal-500",
   "bg-gray-500",
   "bg-white border border-gray-300 shadow-sm"]

/-- ECMAScript `ToInt32`: wrap an integer into `[-2^31, 2^31)`. -/
def toInt32 (n : Int) : Int :=
  (n + 2147483648).emod 4294967296 - 2147483648

/-- The UTF-16 code units of a string (`charCodeAt` iterates these; code
points above `0xFFFF` become surrogate pairs). -/
def utf16Units (s : String) : List Nat :=
  s.data.foldr (fun c acc =>
    if c.toNat < 65536 then c.toNat :: acc
    else (55296 + (c.toNat - 65536) / 1024) :: (56320 + (c.toNat - 65536) % 1024) :: acc) []

/-- Whether `needle` occurs as a contiguous run of characters. -/
def infixOfChars (needle : List Char) : List Char → Bool
  | [] => needle.isEmpty
  | x :: xs => needle.isPrefixOf (x :: xs) || infixOfChars needle xs

/-- JavaScript `String.prototype.includes`. -/
def jsIncludes (s sub : String) : Bool :=
  infixOfChars sub.data s.data

/-- Model of `getColorForRole` of `types.ts`: keyword matching on the lowercased,
trimmed role, falling back to the `hash << 5` string hash (32-bit shift
semantics) modulo the palette size. -/
def getColorForRole (role : String) : String :=
  let r := jsTrim (jsToLower role)
  if jsIncludes r "ui" || jsIncludes r "設計" || jsIncludes r "design" || jsIncludes r "art" then
    "bg-rose-500"
  else if jsIncludes r "fe" || jsIncludes r "front" || jsIncludes r "前端" || jsIncludes r "app"
      || jsIncludes r "web" then
    "bg-blue-500"
  else if jsIncludes r "be" || jsIncludes r "back" || jsIncludes r "後端" || jsIncludes r "api"
      || jsIncludes r "server" then
    "bg-emerald-500"
  else if jsIncludes r "pm" || jsIncludes r "product" || jsIncludes r "專案"
      || jsIncludes r "manager" then
    "bg-purple-500"
  else if jsIncludes r "qa" || jsIncludes r "test" || jsIncludes r "測試" then
    "bg-orange-500"
  else if jsIncludes r "ux" || jsIncludes r "brief" || jsIncludes r "research"
      || jsIncludes r "研究" then
    "bg-amber-500"
  else if jsIncludes r "data" || jsIncludes r "資料" then
    "bg-cyan-500"
  else if r = "rd" ∨ r = "all" ∨ r = "全體" then
    "bg-gray-500"
  else
    let hash := (utf16Units role).foldl
      (fun h c => (c : Int) + (toInt32 (toInt32 h * 32) - h)) 0
    TAILWIND_COLORS.getD (hash.natAbs % TAILWIND_COLORS.length) ""

/-- C10: `getColorForRole` is total and always yields a member of the fixed
`TAILWIND_COLORS` palette — every keyword branch returns a palette member and
the fallback hash index `|hash| % length` is in bounds, so the lookup never
falls through to the out-of-range default. -/
theorem getColorForRole_mem_palette (role : String) :
    getColorForRole role ∈ TAILWIND_COLORS := by
  rw [getColorForRole]
  split_ifs <;> try decide
  have hlen : TAILWIND_COLORS.length = 12 := rfl
  set hash := (utf16Units role).foldl
    (fun h c => (c : Int) + (toInt32 (toInt32 h * 32) - h)) 0 with hhash
  have hidx : hash.natAbs % TAILWIND_COLORS.length < TAILWIND_COLORS.length := by
    apply Nat.mod_lt
    rw [hlen]
    omega
  rw [List.getD_eq_getElem TAILWIND_COLORS "" hidx]
  exact List.getElem_mem hidx

/-! ## C9: the snapshot decoder of `ProjectBoard`

`decodeData` is `decodeURIComponent(escape(window.atob(str)))` followed by
`JSON.parse` and the format dispatch, all inside a `try/catch` that turns any
throw into `null`.  The platform pieces are modelled executably: forgiving
base64 (`atob`), strict UTF-8 decoding (`decodeURIComponent∘escape`), and a
JSON parser into a `Json` value type.  JavaScript values stay dynamic, so the
decoder works on `Json`; `Json.undef` models `undefined` (produced only by
property access), and number literals are kept exactly as decimal
mantissa/exponent pairs.  Modelling restrictions: lone surrogates (legal in
JavaScript strings, unrepresentable in Lean `Char`) are rejected, and
`JSON.parse`'s leading-zero check is not enforced. -/

inductive Json where
  | null : Json
  | undef : Json
  | bool : Bool → Json
  | num : Int → Int → Json
  | str : String → Json
  | arr : List Json → Json
  | obj : List (String × Json) → Json

inductive JsErr where
  | invalidChar : JsErr
  | uriError : JsErr
  | syntaxError : JsErr
  | typeError : JsErr
deriving DecidableEq, Repr

def isB64Whitespace (c : Char) : Bool :=
  c == ' ' || c == '\t' || c == '\n' || c == '\x0c' || c == '\r'

def b64Val (c : Char) : Option Nat :=
  if 'A' ≤ c ∧ c ≤ 'Z' then some (c.toNat - 65)
  else if 'a' ≤ c ∧ c ≤ 'z' then some (c.toNat - 71)
  else if '0' ≤ c ∧ c ≤ '9' then some (c.toNat + 4)
  else if c = '+' then some 62
  else if c = '/' then some 63
  else none

def mapB64Vals : List Char → Option (List Nat)
  | [] => some []
  | c :: cs =>
    match b64Val c, mapB64Vals cs with
    | some v, some vs => some (v :: vs)
    | _, _ => none

def sextetsToBytes : List Nat → List Nat
  | a :: b :: c :: d :: rest =>
    (a * 4 + b / 16) :: ((b % 16) * 16 + c / 4) :: ((c % 4) * 64 + d) :: sextetsToBytes rest
  | [a, b] => [a * 4 + b / 16]
  | [a, b, c] => [a * 4 + b / 16, (b % 16) * 16 + c / 4]
  | _ => []

/-- Model of `window.atob`: forgiving base64 — strip ASCII whitespace, strip up to two
trailing `=` when the length is a multiple of four, reject a remainder of one
or any character outside the alphabet, and emit the decoded bytes. -/
def atobE (s : String) : Except JsErr (List Nat) :=
  let data := s.data.filter (fun c => !isB64Whitespace c)
  let trimmed :=
    if data.length % 4 = 0 then
      if data.reverse.take 2 = ['=', '='] then data.dropLast.dropLast
      else if data.reverse.take 1 = ['='] then data.dropLast
      else data
    else data
  if trimmed.length % 4 = 1 then Except.error JsErr.invalidChar
  else
    match mapB64Vals trimmed with
    | none => Except.error JsErr.invalidChar
    | some vals => Except.ok (sextetsToBytes vals)

def utf8Go (fuel : Nat) (bs : List Nat) : Except JsErr (List Char) :=
  match fuel with
  | 0 => Except.error JsErr.uriError
  | fuel + 1 =>
    match bs with
    | [] => Except.ok []
    | b :: rest =>
      if b < 128 then
        match utf8Go fuel rest with
        | Except.ok cs => Except.ok (Char.ofNat b :: cs)
        | Except.error e => Except.error e
      else if 194 ≤ b ∧ b ≤ 223 then
        match rest with
        | b2 :: rest2 =>
          if 128 ≤ b2 ∧ b2 ≤ 191 then
            match utf8Go fuel rest2 with
            | Except.ok cs => Except.ok (Char.ofNat ((b - 192) * 64 + (b2 - 128)) :: cs)
            | Except.error e => Except.error e
          else Except.error JsErr.uriError
        | [] => Except.error JsErr.uriError
      else if 224 ≤ b ∧ b ≤ 239 then
        match rest with
        | b2 :: b3 :: rest3 =>
          if (128 ≤ b2 ∧ b2 ≤ 191) ∧ (128 ≤ b3 ∧ b3 ≤ 191) then
            let cp := (b - 224) * 4096 + (b2 - 128) * 64 + (b3 - 128)
            if cp < 2048 ∨ (55296 ≤ cp ∧ cp ≤ 57343) then Except.error JsErr.uriError
            else
              match utf8Go fuel rest3 with
              | Except.ok cs => Except.ok (Char.ofNat cp :: cs)
              | Except.error e => Except.error e
          else Except.error JsErr.uriError
        | _ => Except.error JsErr.uriError
      else if 240 ≤ b ∧ b ≤ 244 then
        match rest with
        | b2 :: b3 :: b4 :: rest4 =>
          if (128 ≤ b2 ∧ b2 ≤ 191) ∧ (128 ≤ b3 ∧ b3 ≤ 191) ∧ (128 ≤ b4 ∧ b4 ≤ 191) then
            let cp := (b - 240) * 262144 + (b2 - 128) * 4096 + (b3 - 128) * 64 + (b4 - 128)
            if cp < 65536 ∨ 1114111 < cp then Except.error JsErr.uriError
            else
              match utf8Go fuel rest4 with
              | Except.ok cs => Except.ok (Char.ofNat cp :: cs)
              | Except.error e => Except.error e
          else Except.error JsErr.uriError
        | _ => Except.error JsErr.uriError
      else Except.error JsErr.uriError

/-- Model of `decodeURIComponent(escape(·))`: strict UTF-8 decoding of the binary
string, throwing `URIError` on malformed input. -/
def utf8DecodeE (bs : List Nat) : Except JsErr String :=
  match utf8Go (bs.length + 1) bs with
  | Except.ok cs => Except.ok ⟨cs⟩
  | Except.error e => Except.error e

def jsonWsChar (c : Char) : Bool :=
  c == ' ' || c == '\t' || c == '\n' || c == '\r'

def skipWs (cs : List Char) : List Char :=
  cs.dropWhile jsonWsChar

def hexVal (c : Char) : Option Nat :=
  if '0' ≤ c ∧ c ≤ '9' then some (c.toNat - 48)
  else if 'a' ≤ c ∧ c ≤ 'f' then some (c.toNat - 87)
  else if 'A' ≤ c ∧ c ≤ 'F' then some (c.toNat - 55)
  else none

def hex4 : List Char → Option (Nat × List Char)
  | a :: b :: c :: d :: rest =>
    match hexVal a, hexVal b, hexVal c, hexVal d with
    | some x, some y, some z, some w => some (x * 4096 + y * 256 + z * 16 + w, rest)
    | _, _, _, _ => none
  | _ => none

/-- Body of a JSON string literal (after the opening quote), handling the
escape sequences and surrogate pairs. -/
def parseStringBody (fuel : Nat) (cs : List Char) : Except JsErr (List Char × List Char) :=
  match fuel with
  | 0 => Except.error JsErr.syntaxError
  | fuel + 1 =>
    match cs with
    | [] => Except.error JsErr.syntaxError
    | c :: rest =>
      if c = '"' then Except.ok ([], rest)
      else if c = '\\' then
        match rest with
        | [] => Except.error JsErr.syntaxError
        | e :: rest2 =>
          let simple : Option Char :=
            if e = '"' then some '"'
            else if e = '\\' then some '\\'
            else if e = '/' then some '/'
            else if e = 'b' then some '\x08'
            else if e = 'f' then some '\x0c'
            else if e = 'n' then some '\n'
            else if e = 'r' then some '\r'
            else if e = 't' then some '\t'
            else none
          match simple with
          | some ch =>
            match parseStringBody fuel rest2 with
            | Except.ok p => Except.ok (ch :: p.1, p.2)
            | Except.error err => Except.error err
          | none =>
            if e = 'u' then
              match hex4 rest2 with
              | none => Except.error JsErr.syntaxError
              | some (v, rest3) =>
                if 55296 ≤ v ∧ v ≤ 56319 then
                  match rest3 with
                  | u1 :: u2 :: rest4 =>
                    if u1 = '\\' ∧ u2 = 'u' then
                      match hex4 rest4 with
                      | some (v2, rest5) =>
                        if 56320 ≤ v2 ∧ v2 ≤ 57343 then
                          match parseStringBody fuel rest5 with
                          | Except.ok p =>
                            Except.ok (Char.ofNat (65536 + (v - 55296) * 1024 + (v2 - 56320))
                              :: p.1, p.2)
                          | Except.error err => Except.error err
                        else Except.error JsErr.syntaxError
                      | none => Except.error JsErr.syntaxError
                    else Except.error JsErr.syntaxError
                  | _ => Except.error JsErr.syntaxError
                else if 56320 ≤ v ∧ v ≤ 57343 then Except.error JsErr.syntaxError
                else
                  match parseStringBody fuel rest3 with
                  | Except.ok p => Except.ok (Char.ofNat v :: p.1, p.2)
                  | Except.error err => Except.error err
            else Except.error JsErr.syntaxError
      else if c.toNat < 32 then Except.error JsErr.syntaxError
      else
        match parseStringBody fuel rest with
        | Except.ok p => Except.ok (c :: p.1, p.2)
        | Except.error err => Except.error err

def digitsToInt (ds : List Char) : Int :=
  ((ds.foldl (fun n c => n * 10 + (c.toNat - 48)) 0 : Nat) : Int)

/-- A JSON number literal, kept exactly as mantissa and decimal exponent. -/
def parseNumberChars (cs : List Char) : Except JsErr (Json × List Char) :=
  let signAndRest : Bool × List Char :=
    match cs with
    | '-' :: rest => (true, rest)
    | _ => (false, cs)
  let neg := signAndRest.1
  let cs1 := signAndRest.2
  let intDigits := cs1.takeWhile Char.isDigit
  let cs2 := cs1.drop intDigits.length
  if intDigits.isEmpty then Except.error JsErr.syntaxError
  else
    let hasDot : Bool :=
      match cs2 with
      | '.' :: _ => true
      | _ => false
    let fracDigits :=
      match cs2 with
      | '.' :: restf => restf.takeWhile Char.isDigit
      | _ => []
    let cs3 :=
      if hasDot then (cs2.drop 1).drop fracDigits.length else cs2
    if hasDot ∧ fracDigits.isEmpty then Except.error JsErr.syntaxError
    else
      let mant := (if neg then -1 else 1) * digitsToInt (intDigits ++ fracDigits)
      let fexp : Int := -(fracDigits.length : Int)
      match cs3 with
      | c :: rest4 =>
        if c = 'e' ∨ c = 'E' then
          let esignAndRest : Int × List Char :=
            match rest4 with
            | '+' :: r => (1, r)
            | '-' :: r => (-1, r)
            | _ => (1, rest4)
          let eds := esignAndRest.2.takeWhile Char.isDigit
          if eds.isEmpty then Except.error JsErr.syntaxError
          else Except.ok (Json.num mant (fexp + esignAndRest.1 * digitsToInt eds),
            esignAndRest.2.drop eds.length)
        else Except.ok (Json.num mant fexp, cs3)
      | [] => Except.ok (Json.num mant fexp, cs3)

mutual

def parseJsonValue (fuel : Nat) (cs : List Char) : Except JsErr (Json × List Char) :=
  match fuel with
  | 0 => Except.error JsErr.syntaxError
  | fuel + 1 =>
    match skipWs cs with
    | [] => Except.error JsErr.syntaxError
    | c :: rest =>
      if c = 'n' then
        match rest with
        | 'u' :: 'l' :: 'l' :: rest2 => Except.ok (Json.null, rest2)
        | _ => Except.error JsErr.syntaxError
      else if c = 't' then
        match rest with
        | 'r' :: 'u' :: 'e' :: rest2 => Except.ok (Json.bool true, rest2)
        | _ => Except.error JsErr.syntaxError
      else if c = 'f' then
        match rest with
        | 'a' :: 'l' :: 's' :: 'e' :: rest2 => Except.ok (Json.bool false, rest2)
        | _ => Except.error JsErr.syntaxError
      else if c = '"' then
        match parseStringBody (rest.length + 1) rest with
        | Except.ok p => Except.ok (Json.str ⟨p.1⟩, p.2)
        | Except.error e => Except.error e
      else if c = '[' then
        match skipWs rest with
        | ']' :: rest2 => Except.ok (Json.arr [], rest2)
        | _ =>
          match parseArrayItems fuel rest [] with
          | Except.ok p => Except.ok (Json.arr p.1, p.2)
          | Except.error e => Except.error e
      else if c = '\x7b' then
        match skipWs rest with
        | '\x7d' :: rest2 => Except.ok (Json.obj [], rest2)
        | _ =>
          match parseObjMembers fuel rest [] with
          | Except.ok p => Except.ok (Json.obj p.1, p.2)
          | Except.error e => Except.error e
      else if c = '-' ∨ c.isDigit then parseNumberChars (c :: rest)
      else Except.error JsErr.syntaxError

def parseArrayItems (fuel : Nat) (cs : List Char) (acc : List Json) :
    Except JsErr (List Json × List Char) :=
  match fuel with
  | 0 => Except.error JsErr.syntaxError
  | fuel + 1 =>
    match parseJsonValue fuel cs with
    | Except.error e => Except.error e
    | Except.ok p =>
      match skipWs p.2 with
      | ',' :: rest => parseArrayItems fuel rest (acc ++ [p.1])
      | ']' :: rest => Except.ok (acc ++ [p.1], rest)
      | _ => Except.error JsErr.syntaxError

def parseObjMembers (fuel : Nat) (cs : List Char) (acc : List (String × Json)) :
    Except JsErr (List (String × Json) × List Char) :=
  match fuel with
  | 0 => Except.error JsErr.syntaxError
  | fuel + 1 =>
    match skipWs cs with
    | '"' :: rest =>
      match parseStringBody (rest.length + 1) rest with
      | Except.error e => Except.error e
      | Except.ok pk =>
        match skipWs pk.2 with
        | ':' :: rest2 =>
          match parseJsonValue fuel rest2 with
          | Except.error e => Except.error e
          | Except.ok pv =>
            match skipWs pv.2 with
            | ',' :: rest3 => parseObjMembers fuel rest3 (acc ++ [(⟨pk.1⟩, pv.1)])
            | '\x7d' :: rest3 => Except.ok (acc ++ [(⟨pk.1⟩, pv.1)], rest3)
            | _ => Except.error JsErr.syntaxError
        | _ => Except.error JsErr.syntaxError
    | _ => Except.error JsErr.syntaxError

end

/-- Model of `JSON.parse`: one value, with only trailing whitespace allowed. -/
def jsonParseE (s : String) : Except JsErr Json :=
  match parseJsonValue (2 * s.data.length + 2) s.data with
  | Except.error e => Except.error e
  | Except.ok p =>
    match skipWs p.2 with
    | [] => Except.ok p.1
    | _ => Except.error JsErr.syntaxError

/-- JavaScript property access `j.key` (throws `TypeError` on
`null`/`undefined`, yields `undefined` for anything without the property). -/
def getPropE (j : Json) (key : String) : Except JsErr Json :=
  match j with
  | Json.null => Except.error JsErr.typeError
  | Json.undef => Except.error JsErr.typeError
  | Json.obj fields =>
    match fields.find? (fun f => f.1 == key) with
    | some f => Except.ok f.2
    | none => Except.ok Json.undef
  | _ => Except.ok Json.undef

/-- JavaScript `key in j` (throws `TypeError` on primitives). -/
def hasPropE (j : Json) (key : String) : Except JsErr Bool :=
  match j with
  | Json.obj fields => Except.ok (fields.any (fun f => f.1 == key))
  | Json.arr _ => Except.ok false
  | _ => Except.error JsErr.typeError

/-- JavaScript falsiness (for `a.sl || ''`). -/
def jsFalsy (j : Json) : Bool :=
  match j with
  | Json.undef => true
  | Json.null => true
  | Json.bool b => !b
  | Json.num m _ => m == 0
  | Json.str s => s == ""
  | _ => false

/-- One assignment of `unminifyTasks`: expand the shortened keys. -/
def unminifyAssignment (a : Json) : Except JsErr Json :=
  match getPropE a "i" with
  | Except.error e => Except.error e
  | Except.ok i =>
    match getPropE a "r" with
    | Except.error e => Except.error e
    | Except.ok r =>
      match getPropE a "sl" with
      | Except.error e => Except.error e
      | Except.ok sl =>
        match getPropE a "s" with
        | Except.error e => Except.error e
        | Except.ok s =>
          match getPropE a "e" with
          | Except.error e => Except.error e
          | Except.ok en =>
            match getPropE a "p" with
            | Except.error e => Except.error e
            | Except.ok p =>
              match getPropE a "c" with
              | Except.error e => Except.error e
              | Except.ok c =>
                Except.ok (Json.obj
                  [("id", i), ("role", r),
                   ("subLabel", if jsFalsy sl then Json.str "" else sl),
                   ("startDate", s), ("endDate", en), ("progress", p), ("color", c)])

/-- One task of `unminifyTasks` (`t.a.map(...)` throws unless `t.a` is an
array). -/
def unminifyTask (t : Json) : Except JsErr Json :=
  match getPropE t "i" with
  | Except.error e => Except.error e
  | Except.ok i =>
    match getPropE t "n" with
    | Except.error e => Except.error e
    | Except.ok n =>
      match getPropE t "a" with
      | Except.error e => Except.error e
      | Except.ok aval =>
        match aval with
        | Json.arr elems =>
          match elems.mapM unminifyAssignment with
          | Except.error e => Except.error e
          | Except.ok elems2 =>
            Except.ok (Json.obj [("id", i), ("name", n), ("assignments", Json.arr elems2)])
        | _ => Except.error JsErr.typeError

/-- Model of `unminifyTasks` of `ProjectBoard`. -/
def unminifyTasksE (ts : List Json) : Except JsErr Json :=
  match ts.mapM unminifyTask with
  | Except.error e => Except.error e
  | Except.ok ts2 => Except.ok (Json.arr ts2)

/-- The format dispatch of `decodeData` (lines after `JSON.parse`): a
non-empty array whose first element carries both `n` and `a` is the minified
format; any other array is the legacy format, returned as-is; a non-array
yields `null` explicitly.  `Except.ok none` is the explicit `return null`,
`Except.error` a throw to be caught. -/
def dispatchE (parsed : Json) : Except JsErr (Option Json) :=
  match parsed with
  | Json.arr [] => Except.ok (some (Json.arr []))
  | Json.arr (x :: xs) =>
    match hasPropE x "n" with
    | Except.error e => Except.error e
    | Except.ok hn =>
      if hn then
        match hasPropE x "a" with
        | Except.error e => Except.error e
        | Except.ok ha =>
          if ha then
            match unminifyTasksE (x :: xs) with
            | Except.error e => Except.error e
            | Except.ok v => Except.ok (some v)
          else Except.ok (some (Json.arr (x :: xs)))
      else Except.ok (some (Json.arr (x :: xs)))
  | _ => Except.ok none

/-- The body of `decodeData`'s `try` block. -/
def decodeAttempt (s : String) : Except JsErr (Option Json) :=
  match atobE s with
  | Except.error e => Except.error e
  | Except.ok bytes =>
    match utf8DecodeE bytes with
    | Except.error e => Except.error e
    | Except.ok text =>
      match jsonParseE text with
      | Except.error e => Except.error e
      | Except.ok parsed => dispatchE parsed

/-- Model of `decodeData` of `ProjectBoard`: the attempt with every throw caught and
turned into `null`. -/
def decodeData (s : String) : Option Json :=
  match decodeAttempt s with
  | Except.ok r => r
  | Except.error _ => none

theorem unminifyTasksE_arr (ts : List Json) (v : Json)
    (h : unminifyTasksE ts = Except.ok v) : ∃ elems, v = Json.arr elems := by
  rw [unminifyTasksE] at h
  cases hm : ts.mapM unminifyTask with
  | error e =>
    rw [hm] at h
    exact Except.noConfusion h
  | ok ts2 =>
    rw [hm] at h
    injection h with h2
    exact ⟨ts2, h2.symm⟩

theorem dispatchE_some_arr (parsed v : Json)
    (h : dispatchE parsed = Except.ok (some v)) : ∃ elems, v = Json.arr elems := by
  cases parsed with
  | arr elems =>
    cases elems with
    | nil =>
      rw [dispatchE] at h
      injection h with h2
      injection h2 with h3
      exact ⟨[], h3.symm⟩
    | cons x xs =>
      rw [dispatchE] at h
      cases hn : hasPropE x "n" with
      | error e =>
        rw [hn] at h
        exact Except.noConfusion h
      | ok bn =>
        rw [hn] at h
        dsimp only at h
        by_cases hbn : bn = true
        · rw [hbn, if_pos rfl] at h
          cases ha : hasPropE x "a" with
          | error e =>
            rw [ha] at h
            exact Except.noConfusion h
          | ok ba =>
            rw [ha] at h
            dsimp only at h
            by_cases hba : ba = true
            · rw [hba, if_pos rfl] at h
              cases hu : unminifyTasksE (x :: xs) with
              | error e =>
                rw [hu] at h
                exact Except.noConfusion h
              | ok w =>
                rw [hu] at h
                dsimp only at h
                injection h with h2
                injection h2 with h3
                exact h3 ▸ unminifyTasksE_arr (x :: xs) w hu
            · rw [if_neg (by simpa using hba)] at h
              injection h with h2
              injection h2 with h3
              exact ⟨x :: xs, h3.symm⟩
        · rw [if_neg (by simpa using hbn)] at h
          injection h with h2
          injection h2 with h3
          exact ⟨x :: xs, h3.symm⟩
  | null =>
    have hd : dispatchE Json.null = Except.ok none := rfl
    rw [hd] at h
    injection h with h2
    exact Option.noConfusion h2
  | undef =>
    have hd : dispatchE Json.undef = Except.ok none := rfl
    rw [hd] at h
    injection h with h2
    exact Option.noConfusion h2
  | bool b =>
    have hd : dispatchE (Json.bool b) = Except.ok none := rfl
    rw [hd] at h
    injection h with h2
    exact Option.noConfusion h2
  | num m e =>
    have hd : dispatchE (Json.num m e) = Except.ok none := rfl
    rw [hd] at h
    injection h with h2
    exact Option.noConfusion h2
  | str s =>
    have hd : dispatchE (Json.str s) = Except.ok none := rfl
    rw [hd] at h
    injection h with h2
    exact Option.noConfusion h2
  | obj fields =>
    have hd : dispatchE (Json.obj fields) = Except.ok none := rfl
    rw [hd] at h
    injection h with h2
    exact Option.noConfusion h2

/-- The minified snapshot sample: base64 of
one feature `t1` (`登入`) with one `FE` assignment in shortened keys. -/
def minifiedSnapshotB64 : String :=
  "W3siaSI6InQxIiwibiI6IueZu+WFpSIsImEiOlt7ImkiOiJhMSIsInIiOiJGRSIsInMiOiIyMDI1LTAxLTAyIiwiZSI6IjIwMjUtMDEtMDMiLCJwIjowLCJjIjoiYmctYmx1ZS01MDAifV19XQ=="

/-- The expanded value the minified sample must decode to. -/
def minifiedSnapshotValue : Json :=
  Json.arr [Json.obj
    [("id", Json.str "t1"), ("name", Json.str "登入"),
     ("assignments", Json.arr [Json.obj
       [("id", Json.str "a1"), ("role", Json.str "FE"), ("subLabel", Json.str ""),
        ("startDate", Json.str "2025-01-02"), ("endDate", Json.str "2025-01-03"),
        ("progress", Json.num 0 0), ("color", Json.str "bg-blue-500")]])]]

/-- The legacy (non-shortened) snapshot sample: base64 of a task array with
full key names. -/
def legacySnapshotB64 : String :=
  "W3siaWQiOiJ0MSIsIm5hbWUiOiJMb2dpbiIsImFzc2lnbm1lbnRzIjpbXX1d"

/-- The value the legacy sample must decode to (returned as parsed). -/
def legacySnapshotValue : Json :=
  Json.arr [Json.obj
    [("id", Json.str "t1"), ("name", Json.str "Login"),
     ("assignments", Json.arr [])]]

/-- C9: snapshot decoding is total and backward compatible — every throw in
the decode pipeline is caught and yields `null` (no snapshot), the explicit
`null` for non-array payloads propagates, every successful decode yields a
collection (an array value), and both the key-shortened minified structure
and the older non-shortened structure are accepted. -/
theorem decodeData_total_backcompat :
    (∀ (s : String) (err : JsErr), decodeAttempt s = Except.error err → decodeData s = none) ∧
    (∀ s : String, decodeAttempt s = Except.ok none → decodeData s = none) ∧
    (∀ (s : String) (v : Json), decodeData s = some v → ∃ elems, v = Json.arr elems) ∧
    decodeData minifiedSnapshotB64 = some minifiedSnapshotValue ∧
    decodeData legacySnapshotB64 = some legacySnapshotValue := by
  refine ⟨?_, ?_, ?_, ?_, ?_⟩
  · intro s err herr
    rw [decodeData, herr]
  · intro s hok
    rw [decodeData, hok]
  · intro s v hv
    cases hatt : decodeAttempt s with
    | error e =>
      rw [decodeData, hatt] at hv
      exact Option.noConfusion hv
    | ok r =>
      rw [decodeData, hatt] at hv
      subst hv
      rw [decodeAttempt] at hatt
      cases hb : atobE s with
      | error e =>
        rw [hb] at hatt
        exact Except.noConfusion hatt
      | ok bytes =>
        rw [hb] at hatt
        dsimp only at hatt
        cases hu : utf8DecodeE bytes with
        | error e =>
          rw [hu] at hatt
          exact Except.noConfusion hatt
        | ok text =>
          rw [hu] at hatt
          dsimp only at hatt
          cases hp : jsonParseE text with
          | error e =>
            rw [hp] at hatt
            exact Except.noConfusion hatt
          | ok parsed =>
            rw [hp] at hatt
            dsimp only at hatt
            exact dispatchE_some_arr parsed v hatt
  · set_option maxRecDepth 8000 in rfl
  · set_option maxRecDepth 8000 in rfl

/-- Witness for `decodeData_total_backcompat`: a string that is not valid
base64 throws inside the pipeline and decodes to no snapshot. -/
theorem decodeData_total_backcompat_witness : decodeData "%%%" = none :=
  decodeData_total_backcompat.1 "%%%" JsErr.invalidChar rfl

end Gantt
